import Mathlib

/-!
Shallow embedding of the layout/geometry core of `factorio-spritter`.

* `Img` models `image::RgbaImage`: a width, a height and a row-major pixel
  buffer.  `Img.pixList` models `enumerate_pixels()` (rows outer, columns
  inner, yielding `(x, y, pixel)`).
* Machine integers (`u32`, `usize`) are modelled as `Nat`.  Under the
  hypotheses of the theorems below every arithmetic operation performed by
  the embedded code stays far below `2 ^ 32`, so wrap-around never occurs in
  the real code on these inputs and `Nat` is a faithful model.  The
  `usize::MAX` sentinel of `dedup_empty_frames` is modelled by `Option Nat`,
  and the `u32::MAX` sentinel of `crop_images` by the literal `u32Max`.
* The `f64` center-shift arithmetic of `crop_images` only manipulates values
  of the form `k / 2` with `k < 2 ^ 33`, all exactly representable in `f64`
  (add/sub/half of exact small integers are exact), so it is modelled in `ℚ`.
* The `(f64::from a / f64::from b).ceil() as u32` of the last-sheet height
  and `f64::log2().floor()` of the icon path are exact for `u32` inputs
  (a rounding error of at most `2 ^ -21` cannot move a quotient of two
  `u32` across an integer, and `log2` of a non-power-of-two integer is
  never within `f64` error of an integer), so they are modelled by
  `div_ceil` and `Nat.log2`.
* Rust loops are modelled with an explicit fuel argument so that every
  definition is executable and kernel-reducible; theorems supply enough fuel.
-/

/-- One RGBA8 pixel (`image::Rgba<u8>`); channel values are `0..=255`. -/
structure Rgba where
  r : Nat
  g : Nat
  b : Nat
  a : Nat
deriving DecidableEq

/-- The all-zero (fully transparent) pixel. -/
def Rgba.clear : Rgba := ⟨0, 0, 0, 0⟩

/-- An RGBA raster (`image::RgbaImage`): dimensions plus row-major pixels. -/
structure Img where
  width : Nat
  height : Nat
  data : List Rgba
deriving DecidableEq

/-- Pixel at `(x, y)` (row-major indexing, as `RgbaImage` stores it). -/
def Img.pixel (img : Img) (x y : Nat) : Rgba :=
  img.data.getD (y * img.width + x) Rgba.clear

/-- `enumerate_pixels()`: all `(x, y, pixel)` triples, rows outer. -/
def Img.pixList (img : Img) : List (Nat × Nat × Rgba) :=
  (List.range img.height).flatMap fun y =>
    (List.range img.width).map fun x => (x, y, img.pixel x y)

/-- `u32::MAX`, the initial value of `min_x`/`min_y` in `crop_images`. -/
def u32Max : Nat := 4294967295

/-- Maximum side length of a single graphic file to load in Factorio
(`static MAX_SIZE: u32 = 8192` in `commands/spritesheet.rs`). -/
def MAX_SIZE : Nat := 8192

/-- `u32::div_ceil` / the exact value of `(f64::from a / f64::from b).ceil()`
for `u32` inputs and positive `b`. -/
def div_ceil (a b : Nat) : Nat := (a + b - 1) / b

/-! ## Sheet Layout Engine (`generate_spritesheet`, spritesheet.rs lines 245-431) -/

/-- The `(max_cols_per_sheet, max_rows_per_sheet)` computation
(spritesheet.rs lines 245-263): technical limits `MAX_SIZE / sprite_width`
and `MAX_SIZE / sprite_height`, capped by the user's `--max-sheet-size` /
`--max-sheet-width` options (`0` meaning unlimited). -/
def max_cols_rows (sprite_width sprite_height max_sheet_size max_sheet_width : Nat) :
    Nat × Nat :=
  let technical_max_cols := MAX_SIZE / sprite_width
  let technical_max_rows := MAX_SIZE / sprite_height
  if max_sheet_size = 0 ∧ max_sheet_width = 0 then
    (technical_max_cols, technical_max_rows)
  else if max_sheet_width = 0 then
    (min max_sheet_size technical_max_cols, min max_sheet_size technical_max_rows)
  else if max_sheet_size = 0 then
    (min max_sheet_width technical_max_cols, technical_max_rows)
  else
    (min max_sheet_width technical_max_cols, min max_sheet_size technical_max_rows)

/-- The single-canvas square-growth loop (spritesheet.rs lines 345-357):
`while cols * rows < sprite_count { if cols < max_cols_per_sheet && cols *
sprite_width <= rows * sprite_height { cols += 1 } else { rows += 1 } }`,
with explicit fuel. -/
def grow_loop (sprite_width sprite_height max_cols_per_sheet sprite_count : Nat) :
    Nat → Nat → Nat → Nat × Nat
  | 0, cols, rows => (cols, rows)
  | fuel + 1, cols, rows =>
    if cols * rows < sprite_count then
      if cols < max_cols_per_sheet ∧ cols * sprite_width ≤ rows * sprite_height then
        grow_loop sprite_width sprite_height max_cols_per_sheet sprite_count fuel (cols + 1) rows
      else
        grow_loop sprite_width sprite_height max_cols_per_sheet sprite_count fuel cols (rows + 1)
    else (cols, rows)

/-- Everything `generate_spritesheet` decides about canvas geometry. -/
structure Layout where
  maxCols : Nat
  maxRows : Nat
  sheetCount : Nat
  colsPerSheet : Nat
  rowsPerSheet : Nat
  sheetWidth : Nat
  sheetHeight : Nat
  perSheet : Nat
  lastSheetHeight : Nat
deriving DecidableEq

/-- The maximized-grid branch of `generate_spritesheet` (spritesheet.rs
lines 333-342, plus lines 267-268 for `sheet_count` and 393-404 for the
trimmed last sheet).  `lastSheetHeight` is the height of the final canvas
actually allocated: the full `sheetHeight` when only one sheet exists,
otherwise `sprite_height * ceil(last_count / max_cols)` (the `f64` ceiling
being exact for `u32` inputs). -/
def layout_maximized (sprite_width sprite_height sprite_count max_cols max_rows : Nat) :
    Layout :=
  { maxCols := max_cols
    maxRows := max_rows
    sheetCount := sprite_count / (max_rows * max_cols) +
      (if sprite_count % (max_rows * max_cols) > 0 then 1 else 0)
    colsPerSheet := max_cols
    rowsPerSheet := max_rows
    sheetWidth := sprite_width * max_cols
    sheetHeight := sprite_height * max_rows
    perSheet := max_rows * max_cols
    lastSheetHeight :=
      if sprite_count / (max_rows * max_cols) +
          (if sprite_count % (max_rows * max_cols) > 0 then 1 else 0) = 1 then
        sprite_height * max_rows
      else
        sprite_height * div_ceil
          (if sprite_count % (max_rows * max_cols) = 0 then max_rows * max_cols
           else sprite_count % (max_rows * max_cols))
          max_cols }

/-- The single-canvas square-growth branch of `generate_spritesheet`
(spritesheet.rs lines 343-374): grow from `1 × 1`, then trim
`rows -= empty / cols` when `empty / cols > 0`; the resulting
`cols * rows` is rebound as `max_per_sheet` for placement. -/
def layout_custom (sprite_width sprite_height sprite_count max_cols max_rows : Nat) :
    Layout :=
  let cr := grow_loop sprite_width sprite_height max_cols sprite_count sprite_count 1 1
  let empty := cr.1 * cr.2 - sprite_count
  let rows := if empty / cr.1 > 0 then cr.2 - empty / cr.1 else cr.2
  { maxCols := max_cols
    maxRows := max_rows
    sheetCount := sprite_count / (max_rows * max_cols) +
      (if sprite_count % (max_rows * max_cols) > 0 then 1 else 0)
    colsPerSheet := cr.1
    rowsPerSheet := rows
    sheetWidth := sprite_width * cr.1
    sheetHeight := sprite_height * rows
    perSheet := cr.1 * rows
    lastSheetHeight := sprite_height * rows }

/-- The layout computation of `generate_spritesheet` (spritesheet.rs lines
245-268 and 331-413): `max_per_sheet <= sprite_count` selects the
maximized-grid regime, otherwise the single-canvas square-growth regime. -/
def generate_sheet_layout
    (sprite_width sprite_height sprite_count max_sheet_size max_sheet_width : Nat) : Layout :=
  let mcr := max_cols_rows sprite_width sprite_height max_sheet_size max_sheet_width
  if mcr.2 * mcr.1 ≤ sprite_count then
    layout_maximized sprite_width sprite_height sprite_count mcr.1 mcr.2
  else
    layout_custom sprite_width sprite_height sprite_count mcr.1 mcr.2

/-- Placement of frame `idx` (spritesheet.rs lines 421-425):
`(sheet_idx, column, row)` with `sheet_idx = idx / max_per_sheet`,
`column = idx % max_per_sheet % cols_per_sheet`,
`row = idx % max_per_sheet / cols_per_sheet`. -/
def place (L : Layout) (idx : Nat) : Nat × Nat × Nat :=
  (idx / L.perSheet, idx % L.perSheet % L.colsPerSheet, idx % L.perSheet / L.colsPerSheet)

/-- The growth rule exactly as the specification words it (grow columns
whenever `cols * sprite_width <= rows * sprite_height`, with no
`cols < max_cols_per_sheet` guard), for comparison with `grow_loop`. -/
def grow_loop_spec (sprite_width sprite_height sprite_count : Nat) :
    Nat → Nat → Nat → Nat × Nat
  | 0, cols, rows => (cols, rows)
  | fuel + 1, cols, rows =>
    if cols * rows < sprite_count then
      if cols * sprite_width ≤ rows * sprite_height then
        grow_loop_spec sprite_width sprite_height sprite_count fuel (cols + 1) rows
      else
        grow_loop_spec sprite_width sprite_height sprite_count fuel cols (rows + 1)
    else (cols, rows)

/-- The grid the specification's wording of the single-canvas rule reaches:
unguarded square growth from `1 × 1`, then shrink `rows` by
`floor(excess / cols)`. -/
def spec_grid (sprite_width sprite_height sprite_count : Nat) : Nat × Nat :=
  let cr := grow_loop_spec sprite_width sprite_height sprite_count sprite_count 1 1
  let empty := cr.1 * cr.2 - sprite_count
  (cr.1, cr.2 - empty / cr.1)

/-! ## Subframe Splitter (`generate_subframe_sheets`, spritesheet.rs lines 478-536) -/

/-- The fragment-count search loop (spritesheet.rs lines 489-508): starting
from `frags_x = frags_y = 1`, stop as soon as
`(MAX_SIZE / frag_width) * (MAX_SIZE / frag_height) >= sprite_count`,
otherwise increment `frags_x` when `frag_width >= frag_height` and
`frags_y` otherwise, where `frag_width = sprite_width.div_ceil(frags_x)`
and `frag_height = sprite_height.div_ceil(frags_y)`.  Explicit fuel. -/
def frag_loop (sprite_width sprite_height sprite_count : Nat) :
    Nat → Nat → Nat → Option (Nat × Nat)
  | 0, _, _ => none
  | fuel + 1, frags_x, frags_y =>
    let frag_width := div_ceil sprite_width frags_x
    let frag_height := div_ceil sprite_height frags_y
    if sprite_count ≤ MAX_SIZE / frag_width * (MAX_SIZE / frag_height) then
      some (frags_x, frags_y)
    else if frag_height ≤ frag_width then
      frag_loop sprite_width sprite_height sprite_count fuel (frags_x + 1) frags_y
    else
      frag_loop sprite_width sprite_height sprite_count fuel frags_x (frags_y + 1)

/-- One spatial tile of an oversized frame: offset and size. -/
structure Tile where
  ox : Nat
  oy : Nat
  tw : Nat
  th : Nat
deriving DecidableEq

/-- The tile at grid position `(x, y)` (spritesheet.rs lines 515-519):
offset `(x * frag_width, y * frag_height)`, size
`min(frag_width, sprite_width - tx)` by `min(frag_height, sprite_height - ty)`. -/
def tile_at (sprite_width sprite_height frag_width frag_height x y : Nat) : Tile :=
  let tx := x * frag_width
  let ty := y * frag_height
  ⟨tx, ty, min frag_width (sprite_width - tx), min frag_height (sprite_height - ty)⟩

/-- All tile rectangles, in the order the code pushes them
(spritesheet.rs lines 513-536: `y` outer, `x` inner, i.e. row-major). -/
def tile_rects (sprite_width sprite_height frags_x frags_y : Nat) : List Tile :=
  let frag_width := div_ceil sprite_width frags_x
  let frag_height := div_ceil sprite_height frags_y
  (List.range frags_y).flatMap fun y =>
    (List.range frags_x).map fun x =>
      tile_at sprite_width sprite_height frag_width frag_height x y

/-- Membership of the pixel `(px, py)` in a tile rectangle. -/
def Tile.contains (t : Tile) (px py : Nat) : Prop :=
  t.ox ≤ px ∧ px < t.ox + t.tw ∧ t.oy ≤ py ∧ py < t.oy + t.th

instance (t : Tile) (px py : Nat) : Decidable (t.contains px py) := by
  unfold Tile.contains
  infer_instance

/-! ## Cropper and Deduplicator (`image_util.rs`) -/

deriving instance DecidableEq for Except

/-- The error cases of `image_util.rs` relevant to the geometry core. -/
inductive ImgUtilError where
  | noImagesToCrop
  | notSameSize
  | allImagesEmpty
deriving DecidableEq

/-- The pixels counted as visible by `crop_images` (image_util.rs lines
130-140): coordinates whose alpha channel strictly exceeds `alpha_limit`. -/
def qual_pixels (img : Img) (alpha_limit : Nat) : List (Nat × Nat) :=
  img.pixList.filterMap fun p =>
    if alpha_limit < p.2.2.a then some (p.1, p.2.1) else none

/-- The `x` coordinates collected at image_util.rs lines 130-134. -/
def qual_xs (img : Img) (alpha_limit : Nat) : List Nat :=
  (qual_pixels img alpha_limit).map fun q => q.1

/-- The `y` coordinates collected at image_util.rs lines 136-140. -/
def qual_ys (img : Img) (alpha_limit : Nat) : List Nat :=
  (qual_pixels img alpha_limit).map fun q => q.2

/-- All qualifying pixel coordinates across a frame set (the union the
bounding box is taken over; frames without qualifying pixels contribute
nothing to it). -/
def allQual (imgs : List Img) (alpha_limit : Nat) : List (Nat × Nat) :=
  imgs.flatMap fun img => qual_pixels img alpha_limit

/-- All qualifying `x` coordinates across a frame set. -/
def allXs (imgs : List Img) (alpha_limit : Nat) : List Nat :=
  imgs.flatMap fun img => qual_xs img alpha_limit

/-- All qualifying `y` coordinates across a frame set. -/
def allYs (imgs : List Img) (alpha_limit : Nat) : List Nat :=
  imgs.flatMap fun img => qual_ys img alpha_limit

/-- Smallest element of a list of naturals (`x.sort_unstable(); x[0]`). -/
def listMin : List Nat → Option Nat
  | [] => none
  | x :: xs =>
    match listMin xs with
    | none => some x
    | some m => some (min x m)

/-- Largest element of a list of naturals (`x.sort_unstable(); x[x.len()-1]`). -/
def listMax : List Nat → Option Nat
  | [] => none
  | x :: xs =>
    match listMax xs with
    | none => some x
    | some m => some (max x m)

/-- The bounding-box accumulation loop of `crop_images` (image_util.rs lines
124-167): per frame, fail with `NotSameSize` on a dimension mismatch, skip
frames with no qualifying pixel, otherwise fold the frame's min/max
qualifying coordinates into the running bounds. -/
def crop_bounds_loop (alpha_limit raw_width raw_height : Nat) :
    List Img → Nat → Nat → Nat → Nat → Except ImgUtilError (Nat × Nat × Nat × Nat)
  | [], min_x, min_y, max_x, max_y => .ok (min_x, min_y, max_x, max_y)
  | img :: rest, min_x, min_y, max_x, max_y =>
    if img.width = raw_width ∧ img.height = raw_height then
      match listMin (qual_xs img alpha_limit), listMin (qual_ys img alpha_limit),
          listMax (qual_xs img alpha_limit), listMax (qual_ys img alpha_limit) with
      | some lmn_x, some lmn_y, some lmx_x, some lmx_y =>
        crop_bounds_loop alpha_limit raw_width raw_height rest
          (if min_x > lmn_x then lmn_x else min_x)
          (if min_y > lmn_y then lmn_y else min_y)
          (if max_x < lmx_x then lmx_x else max_x)
          (if max_y < lmx_y then lmx_y else max_y)
      | _, _, _, _ =>
        crop_bounds_loop alpha_limit raw_width raw_height rest min_x min_y max_x max_y
    else .error .notSameSize

/-- `imageops::crop_imm(image, cx, cy, cw, ch).to_image()`. -/
def crop_imm (img : Img) (cx cy cw ch : Nat) : Img :=
  ⟨cw, ch,
    (List.range ch).flatMap fun y =>
      (List.range cw).map fun x => img.pixel (cx + x) (cy + y)⟩

/-- `crop_images` (image_util.rs lines 111-209).  Mutation of the input
vector is modelled by returning the new frame list alongside the
`(shift_x, shift_y)` result.  The `if shift == 0.0 { shift = 0.0 }`
normalisation of `-0.0` (lines 198-204) is kept literally; in `ℚ` it is the
identity. -/
def crop_images (images : List Img) (alpha_limit : Nat) :
    Except ImgUtilError (List Img × ℚ × ℚ) :=
  match images with
  | [] => .error .noImagesToCrop
  | first :: _ =>
    let raw_width := first.width
    let raw_height := first.height
    match crop_bounds_loop alpha_limit raw_width raw_height images u32Max u32Max 0 0 with
    | .error e => .error e
    | .ok (min_x, min_y, max_x, max_y) =>
      if min_x = u32Max ∨ min_y = u32Max ∨ max_x = 0 ∨ max_y = 0 then
        .error .allImagesEmpty
      else if min_x = 0 ∧ min_y = 0 ∧ max_x = raw_width - 1 ∧ max_y = raw_height - 1 then
        .ok (images, 0, 0)
      else
        let cropped_width := max_x - min_x + 1
        let cropped_height := max_y - min_y + 1
        let cropped := images.map fun img => crop_imm img min_x min_y cropped_width cropped_height
        let shift_x : ℚ := -(((raw_width - cropped_width : Nat) : ℚ) / 2 - (min_x : ℚ))
        let shift_y : ℚ := -(((raw_height - cropped_height : Nat) : ℚ) / 2 - (min_y : ℚ))
        .ok (cropped, if shift_x = 0 then 0 else shift_x, if shift_y = 0 then 0 else shift_y)

/-- `image.pixels().all(|pxl| pxl[3] == 0)` (image_util.rs line 217). -/
def Img.emptyFrame (img : Img) : Bool :=
  img.data.all fun pxl => pxl.a == 0

/-- The accumulation loop of `dedup_empty_frames` (image_util.rs lines
216-229); `first_empty_idx == usize::MAX` is modelled as `none`. -/
def dedup_go : List Img → List Img → List Nat → Option Nat → List Img × List Nat
  | [], res, sequence, _ => (res, sequence)
  | image :: rest, res, sequence, first_empty_idx =>
    if image.emptyFrame then
      match first_empty_idx with
      | none => dedup_go rest (res ++ [image]) (sequence ++ [res.length]) (some res.length)
      | some fe => dedup_go rest res (sequence ++ [fe]) (some fe)
    else
      dedup_go rest (res ++ [image]) (sequence ++ [res.length]) first_empty_idx

/-- `dedup_empty_frames` (image_util.rs lines 211-232). -/
def dedup_empty_frames (images : List Img) : List Img × List Nat :=
  dedup_go images [] [] none

/-- Accumulator-free form of the `dedup_empty_frames` loop: processes the
remaining frames given the number `n` of frames already kept and the kept
output index `fe` of the first blank frame seen so far (if any); returns
the kept-frame tail and the sequence tail that `dedup_go` appends. -/
def dedup_tail : List Img → Nat → Option Nat → List Img × List Nat
  | [], _, _ => ([], [])
  | image :: rest, n, fe =>
    if image.emptyFrame then
      match fe with
      | none =>
        (image :: (dedup_tail rest (n + 1) (some n)).1,
         n :: (dedup_tail rest (n + 1) (some n)).2)
      | some k =>
        ((dedup_tail rest n (some k)).1, k :: (dedup_tail rest n (some k)).2)
    else
      (image :: (dedup_tail rest (n + 1) fe).1, n :: (dedup_tail rest (n + 1) fe).2)

/-- Number of frames `dedup_empty_frames` keeps from a list, given whether a
blank representative has already been kept. -/
def keptLen (seenEmpty : Bool) : List Img → Nat
  | [] => 0
  | image :: rest =>
    if image.emptyFrame then
      if seenEmpty then keptLen true rest else keptLen true rest + 1
    else keptLen seenEmpty rest + 1

/-- Nine concrete `1 x 1` test frames whose blank frames are exactly those
at indices `2`, `5` and `7`. -/
def dedupWitnessFrames : List Img :=
  [⟨1, 1, [⟨0, 0, 0, 1⟩]⟩, ⟨1, 1, [⟨0, 0, 0, 2⟩]⟩, ⟨1, 1, [⟨0, 0, 0, 0⟩]⟩,
   ⟨1, 1, [⟨0, 0, 0, 3⟩]⟩, ⟨1, 1, [⟨0, 0, 0, 4⟩]⟩, ⟨1, 1, [⟨0, 0, 0, 0⟩]⟩,
   ⟨1, 1, [⟨0, 0, 0, 5⟩]⟩, ⟨1, 1, [⟨0, 0, 0, 0⟩]⟩, ⟨1, 1, [⟨0, 0, 0, 6⟩]⟩]

/-! ## Mip-Icon Assembler (`generate_mipmap_icon`, icon.rs lines 42-99) -/

/-- The structural errors of the mip-icon path (icon.rs lines 12-25). -/
inductive IconError where
  | imageNotSquare
  | tooManyImages (got maxLevels : Nat)
  | oddImageSizeForMipLevel (idx : Nat)
  | wrongImageSize (got expected : Nat)
deriving DecidableEq

/-- Floor base-2 logarithm, fuel-based so it is kernel-reducible. -/
def log2_loop : Nat → Nat → Nat
  | 0, _ => 0
  | fuel + 1, n => if 2 ≤ n then log2_loop fuel (n / 2) + 1 else 0

/-- `(f64::from(base_width)).log2().floor() as usize` (icon.rs line 64) for a
`u32` input: 32 halvings always exhaust a `u32`. -/
def u32_log2 (n : Nat) : Nat := log2_loop 32 n

/-- The per-level validation/blit loop (icon.rs lines 75-92) over frames
given as `(width, height)` pairs; returns the final `next_x` (the used strip
width).  Checks per level, in order: `next_width` even, frame square, frame
width equals `next_width`; then advances `next_x += next_width` and
`next_width /= 2`. -/
def mip_loop : List (Nat × Nat) → Nat → Nat → Nat → Except IconError Nat
  | [], _, _, next_x => .ok next_x
  | sprite :: rest, idx, next_width, next_x =>
    if next_width % 2 ≠ 0 then .error (.oddImageSizeForMipLevel idx)
    else if sprite.1 ≠ sprite.2 then .error .imageNotSquare
    else if sprite.1 ≠ next_width then .error (.wrongImageSize sprite.1 next_width)
    else mip_loop rest (idx + 1) (next_width / 2) (next_x + next_width)

/-- The geometry of `generate_mipmap_icon` (icon.rs lines 42-99) on a frame
list (already sorted by descending width, as the code arranges right before)
given as `(width, height)` pairs: validation, then the dimensions
`(next_x, base_height)` of the final cropped strip.  The empty-input early
`Ok` return (icon.rs lines 49-52, no image written) is modelled as
`.ok (0, 0)`; `(f64::from(base_width)).log2().floor() as usize` equals
`u32_log2 base_width` for `u32` inputs. -/
def generate_mipmap_icon (images : List (Nat × Nat)) : Except IconError (Nat × Nat) :=
  match images with
  | [] => .ok (0, 0)
  | base :: _ =>
    if base.1 ≠ base.2 then .error .imageNotSquare
    else
      let max_mipmap_levels := u32_log2 base.1
      if images.length > max_mipmap_levels then
        .error (.tooManyImages images.length max_mipmap_levels)
      else
        (mip_loop images 0 base.1 0).map fun next_x => (next_x, base.2)

/-- A concrete `2 x 2` frame whose only visible pixel is at `(1, 1)`. -/
def c6WitnessImg : Img :=
  ⟨2, 2, [Rgba.clear, Rgba.clear, Rgba.clear, ⟨0, 0, 0, 255⟩]⟩

/-- A concrete `6 x 2` frame with visible pixels at `(1, 0)` and `(3, 1)`,
so its tight bounding box is `(1, 0)`–`(3, 1)`. -/
def c9WitnessImg : Img :=
  ⟨6, 2, [Rgba.clear, ⟨0, 0, 0, 255⟩, Rgba.clear, Rgba.clear, Rgba.clear, Rgba.clear,
          Rgba.clear, Rgba.clear, Rgba.clear, ⟨0, 0, 0, 255⟩, Rgba.clear, Rgba.clear]⟩

/-- A concrete `4 x 4` frame whose visible pixels fill the `2 x 2` block with
`x, y ∈ {1, 2}`, so cropping it yields a `2 x 2` frame. -/
def c8WitnessImg : Img :=
  ⟨4, 4, [Rgba.clear, Rgba.clear, Rgba.clear, Rgba.clear,
          Rgba.clear, ⟨0, 0, 0, 255⟩, ⟨0, 0, 0, 255⟩, Rgba.clear,
          Rgba.clear, ⟨0, 0, 0, 255⟩, ⟨0, 0, 0, 255⟩, Rgba.clear,
          Rgba.clear, Rgba.clear, Rgba.clear, Rgba.clear]⟩

/-- A concrete `3 x 3` frame whose only visible pixel is the centre `(1, 1)`,
so cropping it yields a degenerate `1 x 1` frame. -/
def c8CounterImg : Img :=
  ⟨3, 3, [Rgba.clear, Rgba.clear, Rgba.clear,
          Rgba.clear, ⟨0, 0, 0, 255⟩, Rgba.clear,
          Rgba.clear, Rgba.clear, Rgba.clear]⟩

/-! ## Helper lemmas -/

theorem div_ceil_eq_div_add_ite (a b : Nat) (hb : 0 < b) :
    div_ceil a b = a / b + (if a % b > 0 then 1 else 0) := by
  unfold div_ceil
  rcases Nat.eq_zero_or_pos (a % b) with hm | hm
  · have hif : (if a % b > 0 then 1 else 0) = 0 := by simp [hm]
    rw [hif, Nat.add_zero]
    obtain ⟨k, hk⟩ := Nat.dvd_of_mod_eq_zero hm
    subst hk
    rw [Nat.mul_div_cancel_left _ hb, Nat.add_sub_assoc hb, Nat.mul_add_div hb,
      Nat.div_eq_of_lt (Nat.sub_lt hb Nat.one_pos), Nat.add_zero]
  · have hif : (if a % b > 0 then 1 else 0) = 1 := by simp [hm]
    rw [hif]
    have hmb : a % b < b := Nat.mod_lt a hb
    have h0 := Nat.div_add_mod a b
    have key : a + b - 1 = b * (a / b) + b + (a % b - 1) := by omega
    rw [key, ← Nat.mul_succ, Nat.mul_add_div hb,
      Nat.div_eq_of_lt (show a % b - 1 < b by omega), Nat.add_zero]

theorem div_ceil_mul_self (b r : Nat) (hb : 0 < b) : div_ceil (r * b) b = r := by
  unfold div_ceil
  rw [Nat.add_sub_assoc hb, Nat.mul_comm r b, Nat.mul_add_div hb,
    Nat.div_eq_of_lt (Nat.sub_lt hb Nat.one_pos), Nat.add_zero]

theorem generate_sheet_layout_eq_maximized (w h n : Nat)
    (hcap : MAX_SIZE / h * (MAX_SIZE / w) ≤ n) :
    generate_sheet_layout w h n 0 0 =
      layout_maximized w h n (MAX_SIZE / w) (MAX_SIZE / h) := by
  rw [generate_sheet_layout, max_cols_rows]
  simp [hcap]

theorem generate_sheet_layout_eq_custom (w h n : Nat)
    (hcap : n < MAX_SIZE / h * (MAX_SIZE / w)) :
    generate_sheet_layout w h n 0 0 =
      layout_custom w h n (MAX_SIZE / w) (MAX_SIZE / h) := by
  rw [generate_sheet_layout, max_cols_rows]
  simp [Nat.not_le.mpr hcap]

/-! ## C1 -/

/-- C1: the claim states that whenever the uniform sprite dimensions are at
most `MAX_SIZE = 8192`, every canvas produced by the layout engine is at
most `MAX_SIZE` on each side.  The single-canvas square-growth loop caps
`cols` at `max_cols_per_sheet` but never caps `rows`, so the claim is false
on the code: 15 uniform `1000 x 3000` frames (default options) land in the
single-canvas regime (capacity `8 * 2 = 16 > 15`), the growth loop reaches
`7 x 3`, and the single allocated canvas is `7000 x 9000` pixels —
`9000 > 8192`.  The spec (and the code's own comment that `MAX_SIZE` is the
maximum side length Factorio can load) is the clear intent, so this is a
code bug. -/
theorem c1_single_canvas_exceeds_max_size :
    1000 ≤ MAX_SIZE ∧ 3000 ≤ MAX_SIZE ∧
    (generate_sheet_layout 1000 3000 15 0 0).sheetCount = 1 ∧
    (generate_sheet_layout 1000 3000 15 0 0).colsPerSheet = 7 ∧
    (generate_sheet_layout 1000 3000 15 0 0).rowsPerSheet = 3 ∧
    (generate_sheet_layout 1000 3000 15 0 0).sheetWidth = 7000 ∧
    (generate_sheet_layout 1000 3000 15 0 0).sheetHeight = 9000 ∧
    MAX_SIZE < (generate_sheet_layout 1000 3000 15 0 0).sheetHeight := by
  decide

/-! ## C2 -/

/-- C2: in the maximized multi-canvas regime (`capacity <= sprite_count`
with `max_cols = MAX_SIZE / sprite_width`, `max_rows = MAX_SIZE /
sprite_height`, `capacity = max_cols * max_rows`), the layout engine
produces exactly `ceil(sprite_count / capacity)` canvases; every non-final
canvas is the full `max_cols x max_rows` grid (allocated at
`sprite_width * max_cols` by `sprite_height * max_rows` pixels); the final
canvas's height is `sprite_height * ceil(last_count / max_cols)` where
`last_count = sprite_count % capacity`, or `capacity` when that remainder
is `0`; and frame `i` is placed on canvas `i / capacity`, column
`(i % capacity) % max_cols`, row `(i % capacity) / max_cols`. -/
theorem c2_maximized_layout (w h n : Nat) (hw : 0 < w) (hwM : w ≤ MAX_SIZE)
    (hh : 0 < h) (hhM : h ≤ MAX_SIZE)
    (hcap : MAX_SIZE / w * (MAX_SIZE / h) ≤ n) :
    (generate_sheet_layout w h n 0 0).sheetCount =
      div_ceil n (MAX_SIZE / w * (MAX_SIZE / h)) ∧
    (generate_sheet_layout w h n 0 0).colsPerSheet = MAX_SIZE / w ∧
    (generate_sheet_layout w h n 0 0).rowsPerSheet = MAX_SIZE / h ∧
    (generate_sheet_layout w h n 0 0).sheetWidth = w * (MAX_SIZE / w) ∧
    (generate_sheet_layout w h n 0 0).sheetHeight = h * (MAX_SIZE / h) ∧
    (generate_sheet_layout w h n 0 0).lastSheetHeight =
      h * div_ceil
        (if n % (MAX_SIZE / w * (MAX_SIZE / h)) = 0 then MAX_SIZE / w * (MAX_SIZE / h)
         else n % (MAX_SIZE / w * (MAX_SIZE / h)))
        (MAX_SIZE / w) ∧
    ∀ i, place (generate_sheet_layout w h n 0 0) i =
      (i / (MAX_SIZE / w * (MAX_SIZE / h)),
       i % (MAX_SIZE / w * (MAX_SIZE / h)) % (MAX_SIZE / w),
       i % (MAX_SIZE / w * (MAX_SIZE / h)) / (MAX_SIZE / w)) := by
  have hc : 0 < MAX_SIZE / w := Nat.div_pos hwM hw
  have hr : 0 < MAX_SIZE / h := Nat.div_pos hhM hh
  have hcap2 : MAX_SIZE / h * (MAX_SIZE / w) ≤ n := by rw [Nat.mul_comm]; exact hcap
  rw [generate_sheet_layout_eq_maximized w h n hcap2]
  have hcomm : MAX_SIZE / h * (MAX_SIZE / w) = MAX_SIZE / w * (MAX_SIZE / h) :=
    Nat.mul_comm _ _
  have hpos : 0 < MAX_SIZE / w * (MAX_SIZE / h) := Nat.mul_pos hc hr
  refine ⟨?_, rfl, rfl, rfl, rfl, ?_, ?_⟩
  · show n / (MAX_SIZE / h * (MAX_SIZE / w)) +
      (if n % (MAX_SIZE / h * (MAX_SIZE / w)) > 0 then 1 else 0) = _
    rw [hcomm, div_ceil_eq_div_add_ite n _ hpos]
  · show (if n / (MAX_SIZE / h * (MAX_SIZE / w)) +
        (if n % (MAX_SIZE / h * (MAX_SIZE / w)) > 0 then 1 else 0) = 1 then
        h * (MAX_SIZE / h)
      else _) = _
    rw [hcomm]
    by_cases h1 : n / (MAX_SIZE / w * (MAX_SIZE / h)) +
        (if n % (MAX_SIZE / w * (MAX_SIZE / h)) > 0 then 1 else 0) = 1
    · rw [if_pos h1]
      have hd1 : 1 ≤ n / (MAX_SIZE / w * (MAX_SIZE / h)) :=
        (Nat.one_le_div_iff hpos).mpr hcap
      have hm0 : n % (MAX_SIZE / w * (MAX_SIZE / h)) = 0 := by
        by_cases hm : n % (MAX_SIZE / w * (MAX_SIZE / h)) > 0
        · rw [if_pos hm] at h1; omega
        · omega
      rw [if_pos hm0, Nat.mul_comm (MAX_SIZE / w) (MAX_SIZE / h),
        div_ceil_mul_self _ _ hc]
    · rw [if_neg h1]
  · intro i
    show (i / (MAX_SIZE / h * (MAX_SIZE / w)),
        i % (MAX_SIZE / h * (MAX_SIZE / w)) % (MAX_SIZE / w),
        i % (MAX_SIZE / h * (MAX_SIZE / w)) / (MAX_SIZE / w)) = _
    rw [hcomm]

/-- Witness for C2 at sprite size `4096 x 4096` and `10` frames:
`max_cols = max_rows = 2`, capacity `4 <= 10`, three sheets, last sheet
`4096 * 1` pixels high. -/
theorem c2_maximized_layout_witness :
    (0 < 4096 ∧ 4096 ≤ MAX_SIZE ∧ MAX_SIZE / 4096 * (MAX_SIZE / 4096) ≤ 10) ∧
    ((generate_sheet_layout 4096 4096 10 0 0).sheetCount =
        div_ceil 10 (MAX_SIZE / 4096 * (MAX_SIZE / 4096)) ∧
      (generate_sheet_layout 4096 4096 10 0 0).colsPerSheet = MAX_SIZE / 4096 ∧
      (generate_sheet_layout 4096 4096 10 0 0).rowsPerSheet = MAX_SIZE / 4096 ∧
      (generate_sheet_layout 4096 4096 10 0 0).sheetWidth = 4096 * (MAX_SIZE / 4096) ∧
      (generate_sheet_layout 4096 4096 10 0 0).sheetHeight = 4096 * (MAX_SIZE / 4096) ∧
      (generate_sheet_layout 4096 4096 10 0 0).lastSheetHeight =
        4096 * div_ceil
          (if 10 % (MAX_SIZE / 4096 * (MAX_SIZE / 4096)) = 0
           then MAX_SIZE / 4096 * (MAX_SIZE / 4096)
           else 10 % (MAX_SIZE / 4096 * (MAX_SIZE / 4096)))
          (MAX_SIZE / 4096) ∧
      ∀ i, place (generate_sheet_layout 4096 4096 10 0 0) i =
        (i / (MAX_SIZE / 4096 * (MAX_SIZE / 4096)),
         i % (MAX_SIZE / 4096 * (MAX_SIZE / 4096)) % (MAX_SIZE / 4096),
         i % (MAX_SIZE / 4096 * (MAX_SIZE / 4096)) / (MAX_SIZE / 4096))) :=
  ⟨⟨by decide, by decide, by decide⟩,
    c2_maximized_layout 4096 4096 10 (by decide) (by decide) (by decide) (by decide)
      (by decide)⟩

/-! ## C3 -/

theorem grow_loop_post (w h mc n : Nat) :
    ∀ fuel cols rows, 1 ≤ cols → 1 ≤ rows → n ≤ fuel + cols * rows →
      1 ≤ (grow_loop w h mc n fuel cols rows).1 ∧
      1 ≤ (grow_loop w h mc n fuel cols rows).2 ∧
      n ≤ (grow_loop w h mc n fuel cols rows).1 * (grow_loop w h mc n fuel cols rows).2
  | 0, cols, rows, hc, hr, hn => ⟨hc, hr, show n ≤ cols * rows by omega⟩
  | fuel + 1, cols, rows, hc, hr, hn => by
    simp only [grow_loop]
    split
    · split
      · have hsm : (cols + 1) * rows = cols * rows + rows := Nat.succ_mul cols rows
        exact grow_loop_post w h mc n fuel (cols + 1) rows (by omega) hr (by omega)
      · have hsm : cols * (rows + 1) = cols * rows + cols := Nat.mul_succ cols rows
        exact grow_loop_post w h mc n fuel cols (rows + 1) hc (by omega) (by omega)
    · rename_i hlt
      exact ⟨hc, hr, show n ≤ cols * rows by omega⟩

theorem shrink_rows_facts (gc gr n : Nat) (hgc : 1 ≤ gc) (hn : 1 ≤ n)
    (hge : n ≤ gc * gr) :
    (if (gc * gr - n) / gc > 0 then gr - (gc * gr - n) / gc else gr) =
      gr - (gc * gr - n) / gc ∧
    n ≤ gc * (gr - (gc * gr - n) / gc) ∧
    gc * (gr - (gc * gr - n) / gc - 1) < n := by
  have hdm : gc * ((gc * gr - n) / gc) + (gc * gr - n) % gc = gc * gr - n :=
    Nat.div_add_mod _ _
  have hmlt : (gc * gr - n) % gc < gc := Nat.mod_lt _ (by omega)
  have hs_le : (gc * gr - n) / gc ≤ gr :=
    Nat.le_of_mul_le_mul_left
      (show gc * ((gc * gr - n) / gc) ≤ gc * gr by omega) (by omega)
  have e1 : gc * (gr - (gc * gr - n) / gc) + gc * ((gc * gr - n) / gc) = gc * gr := by
    rw [← Nat.mul_add, Nat.sub_add_cancel hs_le]
  have hcover : n ≤ gc * (gr - (gc * gr - n) / gc) := by omega
  have hrows1 : 1 ≤ gr - (gc * gr - n) / gc := by
    rcases Nat.eq_zero_or_pos (gr - (gc * gr - n) / gc) with h0 | h1
    · rw [h0, Nat.mul_zero] at hcover; omega
    · exact h1
  have e2 : gc * (gr - (gc * gr - n) / gc - 1) + gc = gc * (gr - (gc * gr - n) / gc) := by
    have e3 : gc * (gr - (gc * gr - n) / gc - 1) + gc * 1 =
        gc * (gr - (gc * gr - n) / gc - 1 + 1) := (Nat.mul_add gc _ 1).symm
    rw [Nat.mul_one] at e3
    rw [e3, Nat.sub_add_cancel hrows1]
  refine ⟨?_, hcover, by omega⟩
  rcases Nat.eq_zero_or_pos ((gc * gr - n) / gc) with h0 | h1
  · rw [h0]; simp
  · rw [if_pos h1]

/-- C3, amended: in the single-canvas regime the engine reaches its grid by
growing from `1 x 1`, one axis per step, growing columns exactly when both
`cols < max_cols_per_sheet` (the guard the original claim omits) and
`cols * sprite_width <= rows * sprite_height` hold, until
`cols * rows >= sprite_count` (this process is `grow_loop`); it then
shrinks `rows` by `floor((cols * rows - sprite_count) / cols)`; the
resulting grid satisfies `cols * rows >= sprite_count` and has no fully
empty trailing row. -/
theorem c3_single_sheet_layout (w h n : Nat) (hw : 0 < w) (hwM : w ≤ MAX_SIZE)
    (hh : 0 < h) (hhM : h ≤ MAX_SIZE) (hn : 0 < n)
    (hcap : n < MAX_SIZE / w * (MAX_SIZE / h)) :
    (generate_sheet_layout w h n 0 0).colsPerSheet =
      (grow_loop w h (MAX_SIZE / w) n n 1 1).1 ∧
    (generate_sheet_layout w h n 0 0).rowsPerSheet =
      (grow_loop w h (MAX_SIZE / w) n n 1 1).2 -
        ((grow_loop w h (MAX_SIZE / w) n n 1 1).1 * (grow_loop w h (MAX_SIZE / w) n n 1 1).2
          - n) / (grow_loop w h (MAX_SIZE / w) n n 1 1).1 ∧
    n ≤ (generate_sheet_layout w h n 0 0).colsPerSheet *
      (generate_sheet_layout w h n 0 0).rowsPerSheet ∧
    (generate_sheet_layout w h n 0 0).colsPerSheet *
      ((generate_sheet_layout w h n 0 0).rowsPerSheet - 1) < n := by
  have hcap2 : n < MAX_SIZE / h * (MAX_SIZE / w) := by rw [Nat.mul_comm]; exact hcap
  rw [generate_sheet_layout_eq_custom w h n hcap2]
  obtain ⟨hgc, hgr, hge⟩ :=
    grow_loop_post w h (MAX_SIZE / w) n n 1 1 (Nat.le_refl 1) (Nat.le_refl 1) (by omega)
  obtain ⟨heq, hcover, hlast⟩ :=
    shrink_rows_facts (grow_loop w h (MAX_SIZE / w) n n 1 1).1
      (grow_loop w h (MAX_SIZE / w) n n 1 1).2 n hgc hn hge
  simp only [layout_custom]
  refine ⟨trivial, heq, ?_, ?_⟩
  · rw [heq]; exact hcover
  · rw [heq]; exact hlast

/-- C3 counterexample: the claim words the growth rule without the
`cols < max_cols_per_sheet` guard.  With `sprite_width = 750`,
`sprite_height = 500`, `sprite_count = 151` (single-canvas regime:
capacity `10 * 16 = 160 > 151`) the unguarded rule reaches grid
`(11, 14)`, while the engine (whose loop refuses to grow `cols` past
`max_cols_per_sheet = 10`) produces `(10, 16)`. -/
theorem c3_growth_rule_counterexample :
    151 < MAX_SIZE / 750 * (MAX_SIZE / 500) ∧
    spec_grid 750 500 151 = (11, 14) ∧
    (generate_sheet_layout 750 500 151 0 0).colsPerSheet = 10 ∧
    (generate_sheet_layout 750 500 151 0 0).rowsPerSheet = 16 ∧
    spec_grid 750 500 151 ≠
      ((generate_sheet_layout 750 500 151 0 0).colsPerSheet,
       (generate_sheet_layout 750 500 151 0 0).rowsPerSheet) := by
  decide

/-- Witness for C3 at `64 x 64` sprites and `10` frames (the spec's own
example): guarded growth reaches `4 x 3` and no trailing row is empty. -/
theorem c3_single_sheet_layout_witness :
    (0 < 64 ∧ 64 ≤ MAX_SIZE ∧ 0 < 10 ∧ 10 < MAX_SIZE / 64 * (MAX_SIZE / 64)) ∧
    ((generate_sheet_layout 64 64 10 0 0).colsPerSheet =
        (grow_loop 64 64 (MAX_SIZE / 64) 10 10 1 1).1 ∧
      (generate_sheet_layout 64 64 10 0 0).rowsPerSheet =
        (grow_loop 64 64 (MAX_SIZE / 64) 10 10 1 1).2 -
          ((grow_loop 64 64 (MAX_SIZE / 64) 10 10 1 1).1 *
              (grow_loop 64 64 (MAX_SIZE / 64) 10 10 1 1).2 - 10) /
            (grow_loop 64 64 (MAX_SIZE / 64) 10 10 1 1).1 ∧
      10 ≤ (generate_sheet_layout 64 64 10 0 0).colsPerSheet *
        (generate_sheet_layout 64 64 10 0 0).rowsPerSheet ∧
      (generate_sheet_layout 64 64 10 0 0).colsPerSheet *
        ((generate_sheet_layout 64 64 10 0 0).rowsPerSheet - 1) < 10) :=
  ⟨⟨by decide, by decide, by decide, by decide⟩,
    c3_single_sheet_layout 64 64 10 (by decide) (by decide) (by decide) (by decide)
      (by decide) (by decide)⟩

/-! ## C10 -/

theorem one_le_div_ceil (a b : Nat) (ha : 1 ≤ a) (hb : 1 ≤ b) : 1 ≤ div_ceil a b := by
  unfold div_ceil
  exact (Nat.one_le_div_iff hb).mpr (by omega)

theorem lt_of_two_le_div_ceil (a b : Nat) (hb : 1 ≤ b) (h2 : 2 ≤ div_ceil a b) : b < a := by
  unfold div_ceil at h2
  have := (Nat.le_div_iff_mul_le hb).mp h2
  omega

theorem le_mul_div_ceil (a b : Nat) (hb : 1 ≤ b) : a ≤ b * div_ceil a b := by
  unfold div_ceil
  have hdm := Nat.div_add_mod (a + b - 1) b
  have hml : (a + b - 1) % b < b := Nat.mod_lt _ (by omega)
  omega

theorem frag_loop_term (w h n : Nat) (hw : 1 ≤ w) (hh : 1 ≤ h)
    (hn : n ≤ MAX_SIZE * MAX_SIZE) :
    ∀ fuel fx fy, 1 ≤ fx → fx ≤ w → 1 ≤ fy → fy ≤ h →
      w - fx + (h - fy) < fuel →
      ∃ gx gy, frag_loop w h n fuel fx fy = some (gx, gy) ∧
        1 ≤ gx ∧ gx ≤ w ∧ 1 ≤ gy ∧ gy ≤ h ∧
        n ≤ MAX_SIZE / div_ceil w gx * (MAX_SIZE / div_ceil h gy)
  | 0, fx, fy, _, _, _, _, hfuel => absurd hfuel (by omega)
  | fuel + 1, fx, fy, hfx1, hfxw, hfy1, hfyh, hfuel => by
    simp only [frag_loop]
    by_cases hcap : n ≤ MAX_SIZE / div_ceil w fx * (MAX_SIZE / div_ceil h fy)
    · rw [if_pos hcap]
      exact ⟨fx, fy, rfl, hfx1, hfxw, hfy1, hfyh, hcap⟩
    · rw [if_neg hcap]
      have hfw1 : 1 ≤ div_ceil w fx := one_le_div_ceil w fx hw hfx1
      have hfh1 : 1 ≤ div_ceil h fy := one_le_div_ceil h fy hh hfy1
      have hnot11 : ¬(div_ceil w fx = 1 ∧ div_ceil h fy = 1) := by
        rintro ⟨e1, e2⟩
        rw [e1, e2] at hcap
        simp only [Nat.div_one] at hcap
        exact hcap hn
      by_cases hdir : div_ceil h fy ≤ div_ceil w fx
      · rw [if_pos hdir]
        have hfw2 : 2 ≤ div_ceil w fx := by omega
        have hfxw2 : fx < w := lt_of_two_le_div_ceil w fx hfx1 hfw2
        exact frag_loop_term w h n hw hh hn fuel (fx + 1) fy (by omega) (by omega)
          hfy1 hfyh (by omega)
      · rw [if_neg hdir]
        have hfh2 : 2 ≤ div_ceil h fy := by omega
        have hfyh2 : fy < h := lt_of_two_le_div_ceil h fy hfy1 hfh2
        exact frag_loop_term w h n hw hh hn fuel fx (fy + 1) hfx1 hfxw
          (by omega) (by omega) (by omega)

/-- C10: for positive uniform sprite dimensions and
`sprite_count <= MAX_SIZE * MAX_SIZE`, the fragment-search loop of
`generate_subframe_sheets` (start at `frags_x = frags_y = 1`, increment
`frags_x` when `frag_width >= frag_height` and `frags_y` otherwise)
terminates — fuel `sprite_width + sprite_height` always suffices — reaching
a fragment grid whose per-canvas capacity
`(MAX_SIZE / frag_width) * (MAX_SIZE / frag_height)` is at least
`sprite_count`. -/
theorem c10_frag_search_terminates (w h n : Nat) (hw : 1 ≤ w) (hh : 1 ≤ h)
    (hn : n ≤ MAX_SIZE * MAX_SIZE) :
    ∃ fx fy, frag_loop w h n (w + h) 1 1 = some (fx, fy) ∧
      n ≤ MAX_SIZE / div_ceil w fx * (MAX_SIZE / div_ceil h fy) := by
  obtain ⟨gx, gy, heq, _, _, _, _, hcap⟩ :=
    frag_loop_term w h n hw hh hn (w + h) 1 1 (Nat.le_refl 1) hw (Nat.le_refl 1) hh
      (by omega)
  exact ⟨gx, gy, heq, hcap⟩

/-- Witness for C10 at a single `10000 x 10000` frame. -/
theorem c10_frag_search_terminates_witness :
    (1 ≤ 10000 ∧ 1 ≤ MAX_SIZE * MAX_SIZE) ∧
    ∃ fx fy, frag_loop 10000 10000 1 (10000 + 10000) 1 1 = some (fx, fy) ∧
      1 ≤ MAX_SIZE / div_ceil 10000 fx * (MAX_SIZE / div_ceil 10000 fy) :=
  ⟨⟨by decide, by decide⟩,
    c10_frag_search_terminates 10000 10000 1 (by decide) (by decide) (by decide)⟩

/-! ## C4 -/

theorem frag_loop_some_ge (w h n : Nat) :
    ∀ fuel fx fy gx gy, frag_loop w h n fuel fx fy = some (gx, gy) →
      fx ≤ gx ∧ fy ≤ gy
  | 0, fx, fy, gx, gy, heq => by simp [frag_loop] at heq
  | fuel + 1, fx, fy, gx, gy, heq => by
    simp only [frag_loop] at heq
    by_cases hcap : n ≤ MAX_SIZE / div_ceil w fx * (MAX_SIZE / div_ceil h fy)
    · rw [if_pos hcap] at heq
      obtain ⟨e1, e2⟩ := Prod.mk.injEq .. ▸ Option.some.inj heq
      omega
    · rw [if_neg hcap] at heq
      by_cases hdir : div_ceil h fy ≤ div_ceil w fx
      · rw [if_pos hdir] at heq
        have := frag_loop_some_ge w h n fuel (fx + 1) fy gx gy heq
        omega
      · rw [if_neg hdir] at heq
        have := frag_loop_some_ge w h n fuel fx (fy + 1) gx gy heq
        omega

theorem flatMap_range_map_facts {α : Type} (m : Nat) (f : Nat → Nat → α) :
    ∀ nrows,
      ((List.range nrows).flatMap fun y => (List.range m).map (f y)).length = nrows * m ∧
      ∀ k, k < nrows * m →
        ((List.range nrows).flatMap fun y => (List.range m).map (f y))[k]? =
          some (f (k / m) (k % m)) := by
  intro nrows
  induction nrows with
  | zero =>
    refine ⟨by simp, ?_⟩
    intro k hk
    omega
  | succ nr ih =>
    have hsplit :
        ((List.range (nr + 1)).flatMap fun y => (List.range m).map (f y)) =
          ((List.range nr).flatMap fun y => (List.range m).map (f y)) ++
            (List.range m).map (f nr) := by
      rw [List.range_succ, List.flatMap_append, List.flatMap_cons, List.flatMap_nil,
        List.append_nil]
    constructor
    · rw [hsplit, List.length_append, ih.1, List.length_map, List.length_range,
        Nat.succ_mul]
    · intro k hk
      rw [hsplit]
      have hklt : k < nr * m + m := by rw [Nat.succ_mul] at hk; exact hk
      by_cases hlt : k < nr * m
      · rw [List.getElem?_append, if_pos (by rw [ih.1]; exact hlt), ih.2 k hlt]
      · have hm0 : 0 < m := by omega
        have hge : nr * m ≤ k := by omega
        rw [List.getElem?_append_right (by rw [ih.1]; exact hge), ih.1,
          List.getElem?_map, List.getElem?_range (show k - nr * m < m by omega)]
        have hdiv : k / m = nr := Nat.div_eq_of_lt_le hge hk
        have hmod : k % m = k - nr * m := by
          have hdm := Nat.div_add_mod k m
          rw [hdiv] at hdm
          have hcm : m * nr = nr * m := Nat.mul_comm m nr
          omega
        rw [hdiv, hmod]
        rfl

theorem tile_partition (w h fx fy : Nat) (hw : 1 ≤ w) (hh : 1 ≤ h)
    (hfx : 1 ≤ fx) (hfy : 1 ≤ fy) :
    (tile_rects w h fx fy).length = fx * fy ∧
    (∀ k, k < fx * fy →
      (tile_rects w h fx fy)[k]? =
        some (tile_at w h (div_ceil w fx) (div_ceil h fy) (k % fx) (k / fx))) ∧
    (∀ px py, px < w → py < h →
      ∃! k : Nat, ∃ t : Tile, (tile_rects w h fx fy)[k]? = some t ∧ t.contains px py) ∧
    (∀ (k : Nat) (t : Tile), (tile_rects w h fx fy)[k]? = some t →
      ∀ px py, t.contains px py → px < w ∧ py < h) := by
  have hfw1 : 1 ≤ div_ceil w fx := one_le_div_ceil w fx hw hfx
  have hfh1 : 1 ≤ div_ceil h fy := one_le_div_ceil h fy hh hfy
  have hwle : w ≤ fx * div_ceil w fx := le_mul_div_ceil w fx hfx
  have hhle : h ≤ fy * div_ceil h fy := le_mul_div_ceil h fy hfy
  obtain ⟨hlen, hidx⟩ :=
    flatMap_range_map_facts fx (fun y x => tile_at w h (div_ceil w fx) (div_ceil h fy) x y) fy
  have hlen2 : (tile_rects w h fx fy).length = fx * fy := by
    rw [tile_rects]
    rw [hlen, Nat.mul_comm]
  have hidx2 : ∀ k, k < fx * fy →
      (tile_rects w h fx fy)[k]? =
        some (tile_at w h (div_ceil w fx) (div_ceil h fy) (k % fx) (k / fx)) := by
    intro k hk
    rw [tile_rects]
    exact hidx k (by rw [Nat.mul_comm fy fx]; exact hk)
  refine ⟨hlen2, hidx2, ?_, ?_⟩
  · intro px py hpx hpy
    have hx_lt : px / div_ceil w fx < fx := by
      rw [Nat.div_lt_iff_lt_mul (by omega)]
      omega
    have hy_lt : py / div_ceil h fy < fy := by
      rw [Nat.div_lt_iff_lt_mul (by omega)]
      omega
    have hk_lt : fx * (py / div_ceil h fy) + px / div_ceil w fx < fx * fy := by
      have h2 : fx * (py / div_ceil h fy + 1) ≤ fx * fy :=
        Nat.mul_le_mul_left fx (by omega)
      rw [Nat.mul_add, Nat.mul_one] at h2
      omega
    refine ⟨fx * (py / div_ceil h fy) + px / div_ceil w fx,
      ⟨tile_at w h (div_ceil w fx) (div_ceil h fy)
        (px / div_ceil w fx) (py / div_ceil h fy), ?_, ?_⟩, ?_⟩
    · rw [hidx2 _ hk_lt, Nat.mul_add_mod, Nat.mod_eq_of_lt hx_lt,
        Nat.mul_add_div (by omega), Nat.div_eq_of_lt hx_lt, Nat.add_zero]
    · simp only [tile_at, Tile.contains]
      have hxle : px / div_ceil w fx * div_ceil w fx ≤ px := Nat.div_mul_le_self _ _
      have hyle : py / div_ceil h fy * div_ceil h fy ≤ py := Nat.div_mul_le_self _ _
      have hdmx := Nat.div_add_mod px (div_ceil w fx)
      have hmodx : px % div_ceil w fx < div_ceil w fx := Nat.mod_lt _ (by omega)
      have hdmy := Nat.div_add_mod py (div_ceil h fy)
      have hmody : py % div_ceil h fy < div_ceil h fy := Nat.mod_lt _ (by omega)
      have hcw : div_ceil w fx * (px / div_ceil w fx) =
          px / div_ceil w fx * div_ceil w fx := Nat.mul_comm _ _
      have hch : div_ceil h fy * (py / div_ceil h fy) =
          py / div_ceil h fy * div_ceil h fy := Nat.mul_comm _ _
      refine ⟨hxle, ?_, hyle, ?_⟩
      · rcases Nat.le_total (div_ceil w fx) (w - px / div_ceil w fx * div_ceil w fx)
          with hc | hc
        · rw [min_eq_left hc]; omega
        · rw [min_eq_right hc]; omega
      · rcases Nat.le_total (div_ceil h fy) (h - py / div_ceil h fy * div_ceil h fy)
          with hc | hc
        · rw [min_eq_left hc]; omega
        · rw [min_eq_right hc]; omega
    · rintro k ⟨t, hget, hcont⟩
      have hk_lt2 : k < fx * fy := by
        by_contra hkge
        rw [List.getElem?_eq_none (by rw [hlen2]; omega)] at hget
        exact Option.noConfusion hget
      rw [hidx2 k hk_lt2] at hget
      have ht : t = tile_at w h (div_ceil w fx) (div_ceil h fy) (k % fx) (k / fx) :=
        (Option.some.inj hget).symm
      subst ht
      simp only [tile_at, Tile.contains] at hcont
      obtain ⟨hc1, hc2, hc3, hc4⟩ := hcont
      have hc2fw : px < k % fx * div_ceil w fx + div_ceil w fx := by
        rcases Nat.le_total (div_ceil w fx) (w - k % fx * div_ceil w fx) with hc | hc
        · rw [min_eq_left hc] at hc2; omega
        · rw [min_eq_right hc] at hc2; omega
      have hc4fh : py < k / fx * div_ceil h fy + div_ceil h fy := by
        rcases Nat.le_total (div_ceil h fy) (h - k / fx * div_ceil h fy) with hc | hc
        · rw [min_eq_left hc] at hc4; omega
        · rw [min_eq_right hc] at hc4; omega
      have hx_eq : px / div_ceil w fx = k % fx := by
        refine Nat.div_eq_of_lt_le hc1 ?_
        rw [Nat.succ_mul]
        omega
      have hy_eq : py / div_ceil h fy = k / fx := by
        refine Nat.div_eq_of_lt_le hc3 ?_
        rw [Nat.succ_mul]
        omega
      have hdmk := Nat.div_add_mod k fx
      rw [hx_eq, hy_eq]
      omega
  · intro k t hget px py hcont
    have hk_lt2 : k < fx * fy := by
      by_contra hkge
      rw [List.getElem?_eq_none (by rw [hlen2]; omega)] at hget
      exact Option.noConfusion hget
    rw [hidx2 k hk_lt2] at hget
    have ht : t = tile_at w h (div_ceil w fx) (div_ceil h fy) (k % fx) (k / fx) :=
      (Option.some.inj hget).symm
    subst ht
    simp only [tile_at, Tile.contains] at hcont
    obtain ⟨hc1, hc2, hc3, hc4⟩ := hcont
    constructor
    · rcases Nat.le_total (div_ceil w fx) (w - k % fx * div_ceil w fx) with hc | hc
      · rw [min_eq_left hc] at hc2; omega
      · rw [min_eq_right hc] at hc2; omega
    · rcases Nat.le_total (div_ceil h fy) (h - k / fx * div_ceil h fy) with hc | hc
      · rw [min_eq_left hc] at hc4; omega
      · rw [min_eq_right hc] at hc4; omega

/-- C4: for the fragment counts `(frags_x, frags_y)` the Subframe Splitter's
search reaches, the produced tile rectangles (for `x` in `0..frags_x`, `y`
in `0..frags_y`: offset `(x * frag_width, y * frag_height)`, size
`min(frag_width, sprite_width - tx)` by `min(frag_height, sprite_height -
ty)`) exactly cover the `sprite_width x sprite_height` rectangle — every
pixel of the frame lies in exactly one tile and every tile pixel lies in
the frame — and are enumerated in row-major tile order (tile `k` sits at
grid position `(k % frags_x, k / frags_x)`); in particular a single
`10000 x 10000` frame yields the four `5000 x 5000` tiles that exactly
reconstruct the `10000 x 10000` area. -/
theorem c4_subframe_tiles_partition :
    (∀ w h n fx fy fuel, 1 ≤ w → 1 ≤ h →
      frag_loop w h n fuel 1 1 = some (fx, fy) →
      (tile_rects w h fx fy).length = fx * fy ∧
      (∀ k, k < fx * fy →
        (tile_rects w h fx fy)[k]? =
          some (tile_at w h (div_ceil w fx) (div_ceil h fy) (k % fx) (k / fx))) ∧
      (∀ px py, px < w → py < h →
        ∃! k : Nat, ∃ t : Tile, (tile_rects w h fx fy)[k]? = some t ∧
          t.contains px py) ∧
      (∀ (k : Nat) (t : Tile), (tile_rects w h fx fy)[k]? = some t →
        ∀ px py, t.contains px py → px < w ∧ py < h)) ∧
    frag_loop 10000 10000 1 4 1 1 = some (2, 2) ∧
    tile_rects 10000 10000 2 2 =
      [⟨0, 0, 5000, 5000⟩, ⟨5000, 0, 5000, 5000⟩,
       ⟨0, 5000, 5000, 5000⟩, ⟨5000, 5000, 5000, 5000⟩] := by
  refine ⟨?_, by decide, by decide⟩
  intro w h n fx fy fuel hw hh hsearch
  obtain ⟨hfx, hfy⟩ := frag_loop_some_ge w h n fuel 1 1 fx fy hsearch
  exact tile_partition w h fx fy hw hh hfx hfy

/-! ## C5 -/

theorem dedup_go_eq_tail :
    ∀ (l res : List Img) (seq : List Nat) (fe : Option Nat),
      dedup_go l res seq fe =
        (res ++ (dedup_tail l res.length fe).1, seq ++ (dedup_tail l res.length fe).2)
  | [], res, seq, fe => by simp [dedup_go, dedup_tail]
  | image :: rest, res, seq, fe => by
    have ih := fun (res2 : List Img) (seq2 : List Nat) (fe2 : Option Nat) =>
      dedup_go_eq_tail rest res2 seq2 fe2
    by_cases he : image.emptyFrame
    · cases fe with
      | none => simp [dedup_go, dedup_tail, he, ih]
      | some k => simp [dedup_go, dedup_tail, he, ih]
    · simp [dedup_go, dedup_tail, he, ih]

theorem dedup_tail_lengths :
    ∀ (l : List Img) (n : Nat) (fe : Option Nat),
      (dedup_tail l n fe).2.length = l.length ∧
      (dedup_tail l n fe).1.length = keptLen fe.isSome l
  | [], n, fe => by simp [dedup_tail, keptLen]
  | image :: rest, n, fe => by
    by_cases he : image.emptyFrame
    · cases fe with
      | none =>
        have ih := dedup_tail_lengths rest (n + 1) (some n)
        simp [dedup_tail, keptLen, he, ih.1, ih.2]
      | some k =>
        have ih := dedup_tail_lengths rest n (some k)
        simp [dedup_tail, keptLen, he, ih.1, ih.2]
    · have ih := dedup_tail_lengths rest (n + 1) fe
      simp [dedup_tail, keptLen, he, ih.1, ih.2]

theorem dedup_tail_nonblank :
    ∀ (l : List Img) (i n : Nat) (fe : Option Nat) (img : Img),
      l[i]? = some img → img.emptyFrame = false →
      (dedup_tail l n fe).2[i]? = some (n + keptLen fe.isSome (l.take i)) ∧
      (dedup_tail l n fe).1[keptLen fe.isSome (l.take i)]? = some img
  | [], i, n, fe, img, hget, _ => by simp at hget
  | x :: rest, 0, n, fe, img, hget, hnb => by
    rw [List.getElem?_cons_zero] at hget
    obtain rfl : x = img := Option.some.inj hget
    simp [dedup_tail, hnb, keptLen]
  | x :: rest, i + 1, n, fe, img, hget, hnb => by
    rw [List.getElem?_cons_succ] at hget
    by_cases hx : x.emptyFrame
    · cases fe with
      | none =>
        have ih := dedup_tail_nonblank rest i (n + 1) (some n) img hget hnb
        have ih2 := ih.2
        simp only [Option.isSome_some] at ih2
        refine ⟨?_, ?_⟩
        · simp [dedup_tail, hx, keptLen, List.take_succ_cons, ih.1]
          omega
        · simp [dedup_tail, hx, keptLen, List.take_succ_cons, ih2]
      | some k =>
        have ih := dedup_tail_nonblank rest i n (some k) img hget hnb
        have ih2 := ih.2
        simp only [Option.isSome_some] at ih2
        refine ⟨?_, ?_⟩
        · simp [dedup_tail, hx, keptLen, List.take_succ_cons, ih.1]
        · simp [dedup_tail, hx, keptLen, List.take_succ_cons, ih2]
    · have ih := dedup_tail_nonblank rest i (n + 1) fe img hget hnb
      refine ⟨?_, ?_⟩
      · simp [dedup_tail, hx, keptLen, List.take_succ_cons, ih.1]
        omega
      · simp [dedup_tail, hx, keptLen, List.take_succ_cons, ih.2]

theorem dedup_tail_blank_some :
    ∀ (l : List Img) (i n k : Nat) (img : Img),
      l[i]? = some img → img.emptyFrame = true →
      (dedup_tail l n (some k)).2[i]? = some k
  | [], i, n, k, img, hget, _ => by simp at hget
  | x :: rest, 0, n, k, img, hget, hb => by
    rw [List.getElem?_cons_zero] at hget
    obtain rfl : x = img := Option.some.inj hget
    simp [dedup_tail, hb]
  | x :: rest, i + 1, n, k, img, hget, hb => by
    rw [List.getElem?_cons_succ] at hget
    by_cases hx : x.emptyFrame
    · have ih := dedup_tail_blank_some rest i n k img hget hb
      simp [dedup_tail, hx, ih]
    · have ih := dedup_tail_blank_some rest i (n + 1) k img hget hb
      simp [dedup_tail, hx, ih]

theorem dedup_tail_blank_none :
    ∀ (l : List Img) (i j n : Nat) (imgi imgj : Img),
      l[i]? = some imgi → imgi.emptyFrame = true →
      l[j]? = some imgj → imgj.emptyFrame = true →
      (dedup_tail l n none).2[i]? = (dedup_tail l n none).2[j]?
  | [], i, j, n, imgi, imgj, hgi, _, _, _ => by simp at hgi
  | x :: rest, i, j, n, imgi, imgj, hgi, hbi, hgj, hbj => by
    by_cases hx : x.emptyFrame
    · have hval : ∀ (t : Nat) (img : Img), (x :: rest)[t]? = some img →
          img.emptyFrame = true → (dedup_tail (x :: rest) n none).2[t]? = some n := by
        intro t img hget hb
        match t with
        | 0 => simp [dedup_tail, hx]
        | t + 1 =>
          rw [List.getElem?_cons_succ] at hget
          have hrec := dedup_tail_blank_some rest t (n + 1) n img hget hb
          simp [dedup_tail, hx, hrec]
      rw [hval i imgi hgi hbi, hval j imgj hgj hbj]
    · match i, j with
      | 0, _ =>
        rw [List.getElem?_cons_zero] at hgi
        obtain rfl : x = imgi := Option.some.inj hgi
        exact absurd hbi (by simpa using hx)
      | i + 1, 0 =>
        rw [List.getElem?_cons_zero] at hgj
        obtain rfl : x = imgj := Option.some.inj hgj
        exact absurd hbj (by simpa using hx)
      | i + 1, j + 1 =>
        rw [List.getElem?_cons_succ] at hgi
        rw [List.getElem?_cons_succ] at hgj
        have ih := dedup_tail_blank_none rest i j (n + 1) imgi imgj hgi hbi hgj hbj
        simp only [dedup_tail, hx, Bool.false_eq_true, if_false,
          List.getElem?_cons_succ]
        exact ih

theorem dedup_tail_mono :
    ∀ (l : List Img) (i j n : Nat) (fe : Option Nat) (imgj : Img) (vi vj : Nat),
      (∀ k, fe = some k → k < n) → i < j →
      l[j]? = some imgj → imgj.emptyFrame = false →
      (dedup_tail l n fe).2[i]? = some vi →
      (dedup_tail l n fe).2[j]? = some vj → vi < vj
  | [], i, j, n, fe, imgj, vi, vj, _, _, hgj, _, _, _ => by simp at hgj
  | x :: rest, i, 0, n, fe, imgj, vi, vj, _, hij, _, _, _, _ => by omega
  | x :: rest, i, j + 1, n, fe, imgj, vi, vj, hfe, hij, hgj, hnbj, hvi, hvj => by
    rw [List.getElem?_cons_succ] at hgj
    by_cases hx : x.emptyFrame
    · cases fe with
      | none =>
        rw [show (dedup_tail (x :: rest) n none).2 =
            n :: (dedup_tail rest (n + 1) (some n)).2 from by simp [dedup_tail, hx]]
          at hvi hvj
        rw [List.getElem?_cons_succ] at hvj
        match i, hij with
        | 0, _ =>
          rw [List.getElem?_cons_zero] at hvi
          obtain rfl : n = vi := Option.some.inj hvi
          obtain ⟨hseq, _⟩ := dedup_tail_nonblank rest j (n + 1) (some n) imgj hgj hnbj
          rw [hseq] at hvj
          have hv := Option.some.inj hvj
          omega
        | i + 1, _ =>
          rw [List.getElem?_cons_succ] at hvi
          exact dedup_tail_mono rest i j (n + 1) (some n) imgj vi vj
            (fun k2 hk2 => by have := Option.some.inj hk2; omega) (by omega)
            hgj hnbj hvi hvj
      | some k =>
        rw [show (dedup_tail (x :: rest) n (some k)).2 =
            k :: (dedup_tail rest n (some k)).2 from by simp [dedup_tail, hx]]
          at hvi hvj
        rw [List.getElem?_cons_succ] at hvj
        match i, hij with
        | 0, _ =>
          rw [List.getElem?_cons_zero] at hvi
          obtain rfl : k = vi := Option.some.inj hvi
          obtain ⟨hseq, _⟩ := dedup_tail_nonblank rest j n (some k) imgj hgj hnbj
          rw [hseq] at hvj
          have hv := Option.some.inj hvj
          have hk := hfe k rfl
          omega
        | i + 1, _ =>
          rw [List.getElem?_cons_succ] at hvi
          exact dedup_tail_mono rest i j n (some k) imgj vi vj hfe (by omega)
            hgj hnbj hvi hvj
    · rw [show (dedup_tail (x :: rest) n fe).2 =
          n :: (dedup_tail rest (n + 1) fe).2 from by simp [dedup_tail, hx]]
        at hvi hvj
      rw [List.getElem?_cons_succ] at hvj
      match i, hij with
      | 0, _ =>
        rw [List.getElem?_cons_zero] at hvi
        obtain rfl : n = vi := Option.some.inj hvi
        obtain ⟨hseq, _⟩ := dedup_tail_nonblank rest j (n + 1) fe imgj hgj hnbj
        rw [hseq] at hvj
        have hv := Option.some.inj hvj
        omega
      | i + 1, _ =>
        rw [List.getElem?_cons_succ] at hvi
        exact dedup_tail_mono rest i j (n + 1) fe imgj vi vj
          (fun k2 hk2 => by have := hfe k2 hk2; omega) (by omega) hgj hnbj hvi hvj

theorem keptLen_eq (l : List Img) :
    ∀ b, keptLen b l =
      l.countP (fun f => !f.emptyFrame) +
        (if b then 0 else if l.any (fun f => f.emptyFrame) then 1 else 0) := by
  induction l with
  | nil => intro b; simp [keptLen]
  | cons x rest ih =>
    intro b
    by_cases hx : x.emptyFrame
    · cases b <;>
        simp [keptLen, hx, List.countP_cons, List.any_cons, ih true, ih false] <;>
        omega
    · cases b <;>
        simp [keptLen, hx, List.countP_cons, List.any_cons, ih true, ih false] <;>
        omega

theorem countP_eq_range_countP {α : Type} :
    ∀ (l : List α) (p : α → Bool) (q : Nat → Bool),
      (∀ (i : Nat) (x : α), l[i]? = some x → p x = q i) →
      l.countP p = (List.range l.length).countP q
  | [], p, q, hpq => by simp
  | x :: rest, p, q, hpq => by
    have h0 : p x = q 0 := hpq 0 x (by simp)
    have hrest : ∀ (i : Nat) (y : α), rest[i]? = some y → p y = (fun i => q (i + 1)) i := by
      intro i y hy
      exact hpq (i + 1) y (by rw [List.getElem?_cons_succ]; exact hy)
    have ih := countP_eq_range_countP rest p (fun i => q (i + 1)) hrest
    rw [List.countP_cons, ih, List.length_cons, List.range_succ_eq_map,
      List.countP_cons, List.countP_map]
    have hcomp : (q ∘ Nat.succ) = fun i => q (i + 1) := rfl
    rw [hcomp, h0]

theorem range_countP_mem257 (N : Nat) (hN : 8 ≤ N) :
    ((List.range N).countP fun i => decide (i = 2 ∨ i = 5 ∨ i = 7)) = 3 := by
  induction N, hN using Nat.le_induction with
  | base => decide
  | succ n hn ih =>
    rw [List.range_succ, List.countP_append, ih]
    have hno : ¬(n = 2 ∨ n = 5 ∨ n = 7) := by omega
    simp [List.countP_cons, hno]

theorem range_countP_notmem257 (N : Nat) (hN : 8 ≤ N) :
    ((List.range N).countP fun i => !decide (i = 2 ∨ i = 5 ∨ i = 7)) = N - 3 := by
  induction N, hN using Nat.le_induction with
  | base => decide
  | succ n hn ih =>
    rw [List.range_succ, List.countP_append, ih]
    have hno : ¬(n = 2 ∨ n = 5 ∨ n = 7) := by omega
    have h1 : (List.countP (fun i => !decide (i = 2 ∨ i = 5 ∨ i = 7)) [n]) = 1 := by
      simp [List.countP_cons]
      omega
    rw [h1]
    omega

theorem keptLen_all_nonblank :
    ∀ (l : List Img),
      (∀ (j : Nat) (imgj : Img), l[j]? = some imgj → imgj.emptyFrame = false) →
      ∀ b, keptLen b l = l.length
  | [], _, b => by simp [keptLen]
  | x :: rest, h, b => by
    have hx : x.emptyFrame = false := h 0 x (by simp)
    have hrest : ∀ (j : Nat) (imgj : Img), rest[j]? = some imgj →
        imgj.emptyFrame = false := by
      intro j imgj hgj
      exact h (j + 1) imgj (by rw [List.getElem?_cons_succ]; exact hgj)
    simp [keptLen, hx, keptLen_all_nonblank rest hrest b]

theorem keptLen_take_all_nonblank (l : List Img) (i : Nat) (hi : i ≤ l.length)
    (hpre : ∀ (j : Nat) (imgj : Img), j < i → l[j]? = some imgj →
      imgj.emptyFrame = false) :
    keptLen false (l.take i) = i := by
  have hnb : ∀ (j : Nat) (imgj : Img), (l.take i)[j]? = some imgj →
      imgj.emptyFrame = false := by
    intro j imgj hgj
    have hj : j < i := by
      by_contra hge
      have hlen : (l.take i).length ≤ j := by
        rw [List.length_take]
        omega
      rw [List.getElem?_eq_none hlen] at hgj
      exact Option.noConfusion hgj
    rw [List.getElem?_take, if_pos hj] at hgj
    exact hpre j imgj hj hgj
  rw [keptLen_all_nonblank (l.take i) hnb false, List.length_take]
  omega

theorem dedup_tail_blank_first :
    ∀ (l : List Img) (i n : Nat) (img : Img),
      l[i]? = some img → img.emptyFrame = true →
      (∀ (j : Nat) (imgj : Img), j < i → l[j]? = some imgj →
        imgj.emptyFrame = false) →
      (dedup_tail l n none).2[i]? = some (n + keptLen false (l.take i)) ∧
      (dedup_tail l n none).1[keptLen false (l.take i)]? = some img
  | [], i, n, img, hget, _, _ => by simp at hget
  | x :: rest, 0, n, img, hget, hb, _ => by
    rw [List.getElem?_cons_zero] at hget
    obtain rfl : x = img := Option.some.inj hget
    simp [dedup_tail, hb, keptLen]
  | x :: rest, i + 1, n, img, hget, hb, hpre => by
    rw [List.getElem?_cons_succ] at hget
    have hx : x.emptyFrame = false := hpre 0 x (by omega) (by simp)
    have hpre2 : ∀ (j : Nat) (imgj : Img), j < i → rest[j]? = some imgj →
        imgj.emptyFrame = false := by
      intro j imgj hj hgj
      exact hpre (j + 1) imgj (by omega) (by rw [List.getElem?_cons_succ]; exact hgj)
    have ih := dedup_tail_blank_first rest i (n + 1) img hget hb hpre2
    refine ⟨?_, ?_⟩
    · simp [dedup_tail, hx, keptLen, List.take_succ_cons, ih.1]
      omega
    · simp [dedup_tail, hx, keptLen, List.take_succ_cons, ih.2]

/-- C5: the Deduplicator returns a map exactly as long as the input; a frame
is blank iff every one of its pixels has alpha exactly `0`; every non-blank
frame receives a fresh output index equal to its position in the output
sequence (the map points at it in the output); any two blank frames share
one map entry; the first blank frame (no blank precedes it) is retained in
the output at the next available output index — the number of frames kept
from the prefix before it, which equals its own position `i` since that
prefix is all non-blank — its map entry is that index, the output holds the
blank frame itself there, and every blank frame of the set maps to that same
index; indices assigned before a non-blank frame are strictly smaller than
its index; the output length counts non-blank frames plus at most one blank
representative; and for `N >= 8` frames with exactly frames `{2, 5, 7}`
blank the output has `N - 2` frames with `map[2] = some 2` and
`map[2] = map[5] = map[7]`. -/
theorem c5_dedup_characterization (l : List Img) :
    (dedup_empty_frames l).2.length = l.length ∧
    (∀ img : Img, img.emptyFrame = true ↔ ∀ p ∈ img.data, p.a = 0) ∧
    (∀ (i : Nat) (img : Img), l[i]? = some img → img.emptyFrame = false →
      (dedup_empty_frames l).2[i]? = some (keptLen false (l.take i)) ∧
      (dedup_empty_frames l).1[keptLen false (l.take i)]? = some img) ∧
    (∀ (i j : Nat) (imgi imgj : Img), l[i]? = some imgi → imgi.emptyFrame = true →
      l[j]? = some imgj → imgj.emptyFrame = true →
      (dedup_empty_frames l).2[i]? = (dedup_empty_frames l).2[j]?) ∧
    (∀ (i : Nat) (img : Img), l[i]? = some img → img.emptyFrame = true →
      (∀ (j : Nat) (imgj : Img), j < i → l[j]? = some imgj →
        imgj.emptyFrame = false) →
      keptLen false (l.take i) = i ∧
      (dedup_empty_frames l).2[i]? = some (keptLen false (l.take i)) ∧
      (dedup_empty_frames l).1[keptLen false (l.take i)]? = some img ∧
      ∀ (j : Nat) (imgj : Img), l[j]? = some imgj → imgj.emptyFrame = true →
        (dedup_empty_frames l).2[j]? = some (keptLen false (l.take i))) ∧
    (∀ (i j : Nat) (imgj : Img) (vi vj : Nat), i < j →
      l[j]? = some imgj → imgj.emptyFrame = false →
      (dedup_empty_frames l).2[i]? = some vi →
      (dedup_empty_frames l).2[j]? = some vj → vi < vj) ∧
    (dedup_empty_frames l).1.length =
      l.countP (fun f => !f.emptyFrame) +
        (if l.any (fun f => f.emptyFrame) then 1 else 0) ∧
    (8 ≤ l.length →
      (∀ (i : Nat) (hi : i < l.length),
        (l[i].emptyFrame = true ↔ (i = 2 ∨ i = 5 ∨ i = 7))) →
      (dedup_empty_frames l).1.length = l.length - 2 ∧
      (dedup_empty_frames l).2[2]? = some 2 ∧
      (dedup_empty_frames l).2[2]? = (dedup_empty_frames l).2[5]? ∧
      (dedup_empty_frames l).2[5]? = (dedup_empty_frames l).2[7]?) := by
  have hsplit : dedup_empty_frames l = ((dedup_tail l 0 none).1, (dedup_tail l 0 none).2) := by
    rw [dedup_empty_frames, dedup_go_eq_tail]
    simp
  rw [hsplit]
  refine ⟨(dedup_tail_lengths l 0 none).1, ?_, ?_, ?_, ?_, ?_, ?_, ?_⟩
  · intro img
    rw [Img.emptyFrame, List.all_eq_true]
    constructor
    · intro hall p hp
      simpa using hall p hp
    · intro hall p hp
      simpa using hall p hp
  · intro i img hget hnb
    have h := dedup_tail_nonblank l i 0 none img hget hnb
    simpa using h
  · intro i j imgi imgj hgi hbi hgj hbj
    exact dedup_tail_blank_none l i j 0 imgi imgj hgi hbi hgj hbj
  · intro i img hget hb hpre
    have hi : i < l.length := by
      by_contra hge
      rw [List.getElem?_eq_none (by omega)] at hget
      exact Option.noConfusion hget
    have hkl : keptLen false (l.take i) = i :=
      keptLen_take_all_nonblank l i (by omega) hpre
    have hfirst := dedup_tail_blank_first l i 0 img hget hb hpre
    refine ⟨hkl, by simpa using hfirst.1, hfirst.2, ?_⟩
    intro j imgj hgj hbj
    have hshare := dedup_tail_blank_none l j i 0 imgj img hgj hbj hget hb
    show (dedup_tail l 0 none).2[j]? = some (keptLen false (l.take i))
    rw [hshare]
    simpa using hfirst.1
  · intro i j imgj vi vj hij hgj hnbj hvi hvj
    exact dedup_tail_mono l i j 0 none imgj vi vj
      (fun k hk => Option.noConfusion hk) hij hgj hnbj hvi hvj
  · rw [(dedup_tail_lengths l 0 none).2]
    simpa using keptLen_eq l false
  · intro hN hiff
    have hiff2 : ∀ (i : Nat) (img : Img), l[i]? = some img →
        (img.emptyFrame = true ↔ (i = 2 ∨ i = 5 ∨ i = 7)) := by
      intro i img hget
      have hi : i < l.length := by
        by_contra hge
        rw [List.getElem?_eq_none (by omega)] at hget
        exact Option.noConfusion hget
      rw [List.getElem?_eq_getElem hi] at hget
      obtain rfl : l[i] = img := Option.some.inj hget
      exact hiff i hi
    have h2 : l[2]? = some l[2] := List.getElem?_eq_getElem (by omega)
    have h5 : l[5]? = some l[5] := List.getElem?_eq_getElem (by omega)
    have h7 : l[7]? = some l[7] := List.getElem?_eq_getElem (by omega)
    have hb2 : (l[2]).emptyFrame = true := (hiff2 2 _ h2).mpr (by omega)
    have hb5 : (l[5]).emptyFrame = true := (hiff2 5 _ h5).mpr (by omega)
    have hb7 : (l[7]).emptyFrame = true := (hiff2 7 _ h7).mpr (by omega)
    refine ⟨?_, ?_, ?_, ?_⟩
    · rw [(dedup_tail_lengths l 0 none).2]
      simp only [Option.isSome_none]
      have hkeq := keptLen_eq l false
      have hcount : l.countP (fun f => !f.emptyFrame) = l.length - 3 := by
        have hpq : ∀ (i : Nat) (x : Img), l[i]? = some x →
            (fun f => !f.emptyFrame) x = (fun i => !decide (i = 2 ∨ i = 5 ∨ i = 7)) i := by
          intro i x hget
          by_cases hP : (i = 2 ∨ i = 5 ∨ i = 7)
          · have hb : x.emptyFrame = true := (hiff2 i x hget).mpr hP
            simp [hb, hP]
          · have hb : x.emptyFrame = false := by
              rcases Bool.eq_false_or_eq_true x.emptyFrame with ht | hf
              · exact absurd ((hiff2 i x hget).mp ht) hP
              · exact hf
            simp [hb, hP]
        rw [countP_eq_range_countP l _ _ hpq, range_countP_notmem257 l.length hN]
      have hany : l.any (fun f => f.emptyFrame) = true := by
        rw [List.any_eq_true]
        exact ⟨l[2], List.getElem?_mem h2, hb2⟩
      rw [hkeq, hcount, hany]
      simp
      omega
    · have hpre2 : ∀ (j : Nat) (imgj : Img), j < 2 → l[j]? = some imgj →
          imgj.emptyFrame = false := by
        intro j imgj hj hgj
        rcases Bool.eq_false_or_eq_true imgj.emptyFrame with ht | hf
        · exact absurd ((hiff2 j imgj hgj).mp ht) (by omega)
        · exact hf
      have hfirst := dedup_tail_blank_first l 2 0 _ h2 hb2 hpre2
      have hkl : keptLen false (l.take 2) = 2 :=
        keptLen_take_all_nonblank l 2 (by omega) hpre2
      have h1 := hfirst.1
      rw [hkl] at h1
      simpa using h1
    · exact dedup_tail_blank_none l 2 5 0 _ _ h2 hb2 h5 hb5
    · exact dedup_tail_blank_none l 5 7 0 _ _ h5 hb5 h7 hb7

/-- Witness for C5 on nine concrete `1 x 1` frames with frames `{2, 5, 7}`
blank: the output holds `9 - 2 = 7` frames, the first blank frame `2` is
retained at the next available output index `2`, and the map sends `2`, `5`
and `7` to that shared index. -/
theorem c5_dedup_characterization_witness :
    (8 ≤ dedupWitnessFrames.length ∧
      ∀ (i : Nat) (hi : i < dedupWitnessFrames.length),
        (dedupWitnessFrames[i].emptyFrame = true ↔ (i = 2 ∨ i = 5 ∨ i = 7))) ∧
    ((dedup_empty_frames dedupWitnessFrames).1.length =
        dedupWitnessFrames.length - 2 ∧
      (dedup_empty_frames dedupWitnessFrames).2[2]? = some 2 ∧
      (dedup_empty_frames dedupWitnessFrames).2[2]? =
        (dedup_empty_frames dedupWitnessFrames).2[5]? ∧
      (dedup_empty_frames dedupWitnessFrames).2[5]? =
        (dedup_empty_frames dedupWitnessFrames).2[7]?) :=
  ⟨⟨by decide, by decide⟩,
    (c5_dedup_characterization dedupWitnessFrames).2.2.2.2.2.2.2 (by decide) (by decide)⟩

/-- Witness for C4 at a single `10000 x 10000` frame (`frags = 2 x 2`). -/
theorem c4_subframe_tiles_partition_witness :
    (1 ≤ 10000 ∧ frag_loop 10000 10000 1 4 1 1 = some (2, 2)) ∧
    ((tile_rects 10000 10000 2 2).length = 2 * 2 ∧
      (∀ k, k < 2 * 2 →
        (tile_rects 10000 10000 2 2)[k]? =
          some (tile_at 10000 10000 (div_ceil 10000 2) (div_ceil 10000 2)
            (k % 2) (k / 2))) ∧
      (∀ px py, px < 10000 → py < 10000 →
        ∃! k : Nat, ∃ t : Tile, (tile_rects 10000 10000 2 2)[k]? = some t ∧
          t.contains px py) ∧
      (∀ (k : Nat) (t : Tile), (tile_rects 10000 10000 2 2)[k]? = some t →
        ∀ px py, t.contains px py → px < 10000 ∧ py < 10000)) :=
  ⟨⟨by decide, by decide⟩,
    c4_subframe_tiles_partition.1 10000 10000 1 2 2 4 (by decide) (by decide) (by decide)⟩

/-! ## Cropper lemmas (C6, C8, C9) -/

theorem listMin_eq_none_iff : ∀ l : List Nat, listMin l = none ↔ l = []
  | [] => by simp [listMin]
  | x :: xs => by
    simp only [listMin]
    cases listMin xs <;> simp

theorem listMax_eq_none_iff : ∀ l : List Nat, listMax l = none ↔ l = []
  | [] => by simp [listMax]
  | x :: xs => by
    simp only [listMax]
    cases listMax xs <;> simp

theorem listMin_mem : ∀ (l : List Nat) (m : Nat), listMin l = some m → m ∈ l
  | [], m, h => by simp [listMin] at h
  | x :: xs, m, h => by
    simp only [listMin] at h
    cases hxs : listMin xs with
    | none =>
      rw [hxs] at h
      obtain rfl := Option.some.inj h
      exact List.mem_cons_self x xs
    | some m2 =>
      rw [hxs] at h
      obtain rfl := Option.some.inj h
      rcases Nat.le_total x m2 with hc | hc
      · rw [Nat.min_eq_left hc]
        exact List.mem_cons_self x xs
      · rw [Nat.min_eq_right hc]
        exact List.mem_cons_of_mem x (listMin_mem xs m2 hxs)

theorem listMin_le : ∀ (l : List Nat) (m v : Nat), listMin l = some m → v ∈ l → m ≤ v
  | [], m, v, h, hv => by simp at hv
  | x :: xs, m, v, h, hv => by
    simp only [listMin] at h
    rcases List.mem_cons.mp hv with rfl | hv2
    · cases hxs : listMin xs with
      | none =>
        rw [hxs] at h
        obtain rfl := Option.some.inj h
        exact Nat.le_refl v
      | some m2 =>
        rw [hxs] at h
        obtain rfl := Option.some.inj h
        exact Nat.min_le_left _ _
    · cases hxs : listMin xs with
      | none =>
        rw [listMin_eq_none_iff] at hxs
        subst hxs
        simp at hv2
      | some m2 =>
        rw [hxs] at h
        obtain rfl := Option.some.inj h
        exact Nat.le_trans (Nat.min_le_right _ _) (listMin_le xs m2 v hxs hv2)

theorem listMax_mem : ∀ (l : List Nat) (m : Nat), listMax l = some m → m ∈ l
  | [], m, h => by simp [listMax] at h
  | x :: xs, m, h => by
    simp only [listMax] at h
    cases hxs : listMax xs with
    | none =>
      rw [hxs] at h
      obtain rfl := Option.some.inj h
      exact List.mem_cons_self x xs
    | some m2 =>
      rw [hxs] at h
      obtain rfl := Option.some.inj h
      rcases Nat.le_total x m2 with hc | hc
      · rw [Nat.max_eq_right hc]
        exact List.mem_cons_of_mem x (listMax_mem xs m2 hxs)
      · rw [Nat.max_eq_left hc]
        exact List.mem_cons_self x xs

theorem listMax_ge : ∀ (l : List Nat) (m v : Nat), listMax l = some m → v ∈ l → v ≤ m
  | [], m, v, h, hv => by simp at hv
  | x :: xs, m, v, h, hv => by
    simp only [listMax] at h
    rcases List.mem_cons.mp hv with rfl | hv2
    · cases hxs : listMax xs with
      | none =>
        rw [hxs] at h
        obtain rfl := Option.some.inj h
        exact Nat.le_refl v
      | some m2 =>
        rw [hxs] at h
        obtain rfl := Option.some.inj h
        exact Nat.le_max_left _ _
    · cases hxs : listMax xs with
      | none =>
        rw [listMax_eq_none_iff] at hxs
        subst hxs
        simp at hv2
      | some m2 =>
        rw [hxs] at h
        obtain rfl := Option.some.inj h
        exact Nat.le_trans (listMax_ge xs m2 v hxs hv2) (Nat.le_max_right _ _)

theorem foldl_min_listMin : ∀ (l : List Nat) (a : Nat),
    l.foldl min a = match listMin l with | none => a | some m => min a m
  | [], a => rfl
  | x :: xs, a => by
    rw [List.foldl_cons, foldl_min_listMin xs (min a x)]
    simp only [listMin]
    cases listMin xs with
    | none => rfl
    | some m => simp [Nat.min_assoc]

theorem foldl_max_listMax : ∀ (l : List Nat) (a : Nat),
    l.foldl max a = match listMax l with | none => a | some m => max a m
  | [], a => rfl
  | x :: xs, a => by
    rw [List.foldl_cons, foldl_max_listMax xs (max a x)]
    simp only [listMax]
    cases listMax xs with
    | none => rfl
    | some m => simp [Nat.max_assoc]

theorem update_min_eq (a m : Nat) : (if a > m then m else a) = min a m := by
  rcases Nat.lt_or_ge m a with hc | hc
  · rw [if_pos hc, Nat.min_eq_right (Nat.le_of_lt hc)]
  · rw [if_neg (by omega), Nat.min_eq_left hc]

theorem update_max_eq (a m : Nat) : (if a < m then m else a) = max a m := by
  rcases Nat.lt_or_ge a m with hc | hc
  · rw [if_pos hc, Nat.max_eq_right (Nat.le_of_lt hc)]
  · rw [if_neg (by omega), Nat.max_eq_left hc]

theorem mem_qual_pixels (img : Img) (t x y : Nat) :
    (x, y) ∈ qual_pixels img t ↔
      x < img.width ∧ y < img.height ∧ t < (img.pixel x y).a := by
  simp only [qual_pixels, Img.pixList, List.mem_filterMap, List.mem_flatMap,
    List.mem_map, List.mem_range]
  constructor
  · rintro ⟨p, ⟨y2, hy2, x2, hx2, rfl⟩, hf⟩
    simp only at hf
    split at hf
    · rename_i ht
      have h2 := Option.some.inj hf
      rw [Prod.mk.injEq] at h2
      obtain ⟨rfl, rfl⟩ := h2
      exact ⟨hx2, hy2, ht⟩
    · exact Option.noConfusion hf
  · rintro ⟨hx, hy, ht⟩
    exact ⟨(x, y, img.pixel x y), ⟨y, hy, x, hx, rfl⟩, by simp [ht]⟩

theorem mem_qual_xs (img : Img) (t v : Nat) :
    v ∈ qual_xs img t ↔ ∃ q ∈ qual_pixels img t, q.1 = v := by
  simp [qual_xs, List.mem_map]

theorem mem_qual_ys (img : Img) (t v : Nat) :
    v ∈ qual_ys img t ↔ ∃ q ∈ qual_pixels img t, q.2 = v := by
  simp [qual_ys, List.mem_map]

theorem qual_xs_nil_iff (img : Img) (t : Nat) :
    qual_xs img t = [] ↔ qual_pixels img t = [] := by
  rw [qual_xs, List.map_eq_nil_iff]

theorem qual_ys_nil_iff (img : Img) (t : Nat) :
    qual_ys img t = [] ↔ qual_pixels img t = [] := by
  rw [qual_ys, List.map_eq_nil_iff]

theorem mem_allXs (imgs : List Img) (t v : Nat) :
    v ∈ allXs imgs t ↔ ∃ img ∈ imgs, ∃ q ∈ qual_pixels img t, q.1 = v := by
  simp [allXs, List.mem_flatMap, mem_qual_xs]

theorem mem_allYs (imgs : List Img) (t v : Nat) :
    v ∈ allYs imgs t ↔ ∃ img ∈ imgs, ∃ q ∈ qual_pixels img t, q.2 = v := by
  simp [allYs, List.mem_flatMap, mem_qual_ys]

theorem mem_allQual (imgs : List Img) (t : Nat) (q : Nat × Nat) :
    q ∈ allQual imgs t ↔ ∃ img ∈ imgs, q ∈ qual_pixels img t := by
  simp [allQual, List.mem_flatMap]

theorem allXs_nil_iff (imgs : List Img) (t : Nat) :
    allXs imgs t = [] ↔ allQual imgs t = [] := by
  rw [List.eq_nil_iff_forall_not_mem, List.eq_nil_iff_forall_not_mem]
  constructor
  · intro hx q hq
    rw [mem_allQual] at hq
    obtain ⟨img, himg, hqp⟩ := hq
    exact hx q.1 ((mem_allXs imgs t q.1).mpr ⟨img, himg, q, hqp, rfl⟩)
  · intro hq v hv
    rw [mem_allXs] at hv
    obtain ⟨img, himg, q, hqp, rfl⟩ := hv
    exact hq q ((mem_allQual imgs t q).mpr ⟨img, himg, hqp⟩)

theorem allYs_nil_iff (imgs : List Img) (t : Nat) :
    allYs imgs t = [] ↔ allQual imgs t = [] := by
  rw [List.eq_nil_iff_forall_not_mem, List.eq_nil_iff_forall_not_mem]
  constructor
  · intro hx q hq
    rw [mem_allQual] at hq
    obtain ⟨img, himg, hqp⟩ := hq
    exact hx q.2 ((mem_allYs imgs t q.2).mpr ⟨img, himg, q, hqp, rfl⟩)
  · intro hq v hv
    rw [mem_allYs] at hv
    obtain ⟨img, himg, q, hqp, rfl⟩ := hv
    exact hq q ((mem_allQual imgs t q).mpr ⟨img, himg, hqp⟩)

theorem listMin_some_of_ne_nil (l : List Nat) (h : l ≠ []) : ∃ m, listMin l = some m := by
  cases hc : listMin l with
  | none => exact absurd ((listMin_eq_none_iff l).mp hc) h
  | some m => exact ⟨m, rfl⟩

theorem listMax_some_of_ne_nil (l : List Nat) (h : l ≠ []) : ∃ m, listMax l = some m := by
  cases hc : listMax l with
  | none => exact absurd ((listMax_eq_none_iff l).mp hc) h
  | some m => exact ⟨m, rfl⟩

theorem crop_bounds_loop_ok (t rw rh : Nat) :
    ∀ (imgs : List Img) (a b c d : Nat),
      (∀ img ∈ imgs, img.width = rw ∧ img.height = rh) →
      crop_bounds_loop t rw rh imgs a b c d =
        .ok ((allXs imgs t).foldl min a, (allYs imgs t).foldl min b,
          (allXs imgs t).foldl max c, (allYs imgs t).foldl max d)
  | [], a, b, c, d, _ => by simp [crop_bounds_loop, allXs, allYs]
  | img :: rest, a, b, c, d, hsz => by
    have hhd := hsz img (List.mem_cons_self img rest)
    have htl : ∀ i ∈ rest, i.width = rw ∧ i.height = rh := fun i hi =>
      hsz i (List.mem_cons_of_mem img hi)
    have hx_app : allXs (img :: rest) t = qual_xs img t ++ allXs rest t := by
      simp [allXs, List.flatMap_cons]
    have hy_app : allYs (img :: rest) t = qual_ys img t ++ allYs rest t := by
      simp [allYs, List.flatMap_cons]
    rw [hx_app, hy_app, List.foldl_append, List.foldl_append, List.foldl_append,
      List.foldl_append]
    by_cases hemp : qual_pixels img t = []
    · have hxe : qual_xs img t = [] := (qual_xs_nil_iff img t).mpr hemp
      have hye : qual_ys img t = [] := (qual_ys_nil_iff img t).mpr hemp
      have hxm : listMin (qual_xs img t) = none := (listMin_eq_none_iff _).mpr hxe
      have hym : listMin (qual_ys img t) = none := (listMin_eq_none_iff _).mpr hye
      simp only [crop_bounds_loop, if_pos hhd, hxm]
      rw [crop_bounds_loop_ok t rw rh rest a b c d htl, hxe, hye]
      simp
    · obtain ⟨mx, hmx⟩ := listMin_some_of_ne_nil (qual_xs img t)
        (fun h => hemp ((qual_xs_nil_iff img t).mp h))
      obtain ⟨my, hmy⟩ := listMin_some_of_ne_nil (qual_ys img t)
        (fun h => hemp ((qual_ys_nil_iff img t).mp h))
      obtain ⟨Mx, hMx⟩ := listMax_some_of_ne_nil (qual_xs img t)
        (fun h => hemp ((qual_xs_nil_iff img t).mp h))
      obtain ⟨My, hMy⟩ := listMax_some_of_ne_nil (qual_ys img t)
        (fun h => hemp ((qual_ys_nil_iff img t).mp h))
      simp only [crop_bounds_loop, if_pos hhd, hmx, hmy, hMx, hMy]
      rw [crop_bounds_loop_ok t rw rh rest _ _ _ _ htl]
      rw [update_min_eq a mx, update_min_eq b my, update_max_eq c Mx, update_max_eq d My]
      rw [foldl_min_listMin (qual_xs img t) a, hmx,
        foldl_min_listMin (qual_ys img t) b, hmy,
        foldl_max_listMax (qual_xs img t) c, hMx,
        foldl_max_listMax (qual_ys img t) d, hMy]

theorem crop_bounds_loop_error_iff (t rw rh : Nat) :
    ∀ (imgs : List Img) (a b c d : Nat) (e : ImgUtilError),
      crop_bounds_loop t rw rh imgs a b c d = .error e ↔
        (e = .notSameSize ∧ ∃ img ∈ imgs, ¬(img.width = rw ∧ img.height = rh))
  | [], a, b, c, d, e => by simp [crop_bounds_loop]
  | img :: rest, a, b, c, d, e => by
    by_cases hsz : img.width = rw ∧ img.height = rh
    · have ih := fun a2 b2 c2 d2 =>
        crop_bounds_loop_error_iff t rw rh rest a2 b2 c2 d2 e
      simp only [crop_bounds_loop, if_pos hsz]
      cases h1 : listMin (qual_xs img t) <;> cases h2 : listMin (qual_ys img t) <;>
        cases h3 : listMax (qual_xs img t) <;> cases h4 : listMax (qual_ys img t) <;>
        simp [ih, List.mem_cons, hsz]
    · simp only [crop_bounds_loop, if_neg hsz]
      constructor
      · intro he
        obtain rfl : ImgUtilError.notSameSize = e := Except.error.inj he
        exact ⟨rfl, img, List.mem_cons_self img rest, hsz⟩
      · rintro ⟨rfl, _⟩
        rfl

theorem foldl_min_le_mem (l : List Nat) (a v : Nat) (hv : v ∈ l) : l.foldl min a ≤ v := by
  rw [foldl_min_listMin]
  obtain ⟨m, hm⟩ := listMin_some_of_ne_nil l (by rintro rfl; simp at hv)
  rw [hm]
  exact Nat.le_trans (Nat.min_le_right a m) (listMin_le l m v hm hv)

theorem foldl_min_cases (l : List Nat) (a : Nat) :
    l.foldl min a = a ∨ l.foldl min a ∈ l := by
  rw [foldl_min_listMin]
  cases hm : listMin l with
  | none => exact Or.inl rfl
  | some m =>
    dsimp only
    rcases Nat.le_total a m with hc | hc
    · exact Or.inl (Nat.min_eq_left hc)
    · rw [Nat.min_eq_right hc]
      exact Or.inr (listMin_mem l m hm)

theorem foldl_max_ge_mem (l : List Nat) (a v : Nat) (hv : v ∈ l) : v ≤ l.foldl max a := by
  rw [foldl_max_listMax]
  obtain ⟨m, hm⟩ := listMax_some_of_ne_nil l (by rintro rfl; simp at hv)
  rw [hm]
  exact Nat.le_trans (listMax_ge l m v hm hv) (Nat.le_max_right a m)

theorem foldl_max_cases (l : List Nat) (a : Nat) :
    l.foldl max a = a ∨ l.foldl max a ∈ l := by
  rw [foldl_max_listMax]
  cases hm : listMax l with
  | none => exact Or.inl rfl
  | some m =>
    dsimp only
    rcases Nat.le_total a m with hc | hc
    · rw [Nat.max_eq_right hc]
      exact Or.inr (listMax_mem l m hm)
    · exact Or.inl (Nat.max_eq_left hc)

theorem foldl_max_eq_init_iff (l : List Nat) (a : Nat) :
    l.foldl max a = a ↔ ∀ v ∈ l, v ≤ a := by
  rw [foldl_max_listMax]
  cases hm : listMax l with
  | none =>
    rw [listMax_eq_none_iff] at hm
    subst hm
    simp
  | some m =>
    dsimp only
    constructor
    · intro heq v hv
      have h1 : v ≤ m := listMax_ge l m v hm hv
      have h2 : m ≤ max a m := Nat.le_max_right a m
      exact Nat.le_trans h1 (Nat.le_trans h2 (Nat.le_of_eq heq))
    · intro hall
      exact Nat.max_eq_left (hall m (listMax_mem l m hm))

theorem foldl_max_le_bound (l : List Nat) (a bd : Nat) (hinit : a ≤ bd)
    (hall : ∀ v ∈ l, v ≤ bd) : l.foldl max a ≤ bd := by
  rcases foldl_max_cases l a with hc | hc
  · omega
  · exact hall _ hc

/-- Under uniform dimensions every union-qualifying `x` is below the width
and every `y` is below the height. -/
theorem allQual_bounds (imgs : List Img) (t rw rh : Nat)
    (hsz : ∀ img ∈ imgs, img.width = rw ∧ img.height = rh) :
    ∀ q ∈ allQual imgs t, q.1 < rw ∧ q.2 < rh := by
  intro q hq
  rw [mem_allQual] at hq
  obtain ⟨img, himg, hqp⟩ := hq
  have hmem : (q.1, q.2) ∈ qual_pixels img t := hqp
  rw [mem_qual_pixels] at hmem
  obtain ⟨h1, h2, _⟩ := hmem
  obtain ⟨hw, hh⟩ := hsz img himg
  omega

theorem mem_allXs_allQual (imgs : List Img) (t v : Nat) (hv : v ∈ allXs imgs t) :
    ∃ q ∈ allQual imgs t, q.1 = v := by
  rw [mem_allXs] at hv
  obtain ⟨img, himg, q, hq, rfl⟩ := hv
  exact ⟨q, (mem_allQual imgs t q).mpr ⟨img, himg, hq⟩, rfl⟩

theorem mem_allYs_allQual (imgs : List Img) (t v : Nat) (hv : v ∈ allYs imgs t) :
    ∃ q ∈ allQual imgs t, q.2 = v := by
  rw [mem_allYs] at hv
  obtain ⟨img, himg, q, hq, rfl⟩ := hv
  exact ⟨q, (mem_allQual imgs t q).mpr ⟨img, himg, hq⟩, rfl⟩


theorem allQual_mem_allXs (imgs : List Img) (t : Nat) (q : Nat × Nat)
    (hq : q ∈ allQual imgs t) : q.1 ∈ allXs imgs t := by
  rw [mem_allQual] at hq
  obtain ⟨img, himg, hqp⟩ := hq
  exact (mem_allXs imgs t q.1).mpr ⟨img, himg, q, hqp, rfl⟩

theorem allQual_mem_allYs (imgs : List Img) (t : Nat) (q : Nat × Nat)
    (hq : q ∈ allQual imgs t) : q.2 ∈ allYs imgs t := by
  rw [mem_allQual] at hq
  obtain ⟨img, himg, hqp⟩ := hq
  exact (mem_allYs imgs t q.2).mpr ⟨img, himg, q, hqp, rfl⟩

theorem crop_empty_cond_iff (imgs : List Img) (t rw rh : Nat)
    (hsz : ∀ img ∈ imgs, img.width = rw ∧ img.height = rh)
    (hwb : rw < u32Max) (hhb : rh < u32Max) :
    ((allXs imgs t).foldl min u32Max = u32Max ∨ (allYs imgs t).foldl min u32Max = u32Max ∨
      (allXs imgs t).foldl max 0 = 0 ∨ (allYs imgs t).foldl max 0 = 0) ↔
    (allQual imgs t = [] ∨ (∀ q ∈ allQual imgs t, q.1 = 0) ∨
      (∀ q ∈ allQual imgs t, q.2 = 0)) := by
  have hxlt : ∀ v ∈ allXs imgs t, v < rw := by
    intro v hv
    obtain ⟨q, hq, rfl⟩ := mem_allXs_allQual imgs t v hv
    exact (allQual_bounds imgs t rw rh hsz q hq).1
  have hylt : ∀ v ∈ allYs imgs t, v < rh := by
    intro v hv
    obtain ⟨q, hq, rfl⟩ := mem_allYs_allQual imgs t v hv
    exact (allQual_bounds imgs t rw rh hsz q hq).2
  have hA1 : (allXs imgs t).foldl min u32Max = u32Max ↔ allXs imgs t = [] := by
    constructor
    · intro he
      by_contra hne
      obtain ⟨v, hv⟩ := List.exists_mem_of_ne_nil _ hne
      have h1 := foldl_min_le_mem (allXs imgs t) u32Max v hv
      have h2 := hxlt v hv
      omega
    · intro he
      rw [he]
      rfl
  have hA2 : (allYs imgs t).foldl min u32Max = u32Max ↔ allYs imgs t = [] := by
    constructor
    · intro he
      by_contra hne
      obtain ⟨v, hv⟩ := List.exists_mem_of_ne_nil _ hne
      have h1 := foldl_min_le_mem (allYs imgs t) u32Max v hv
      have h2 := hylt v hv
      omega
    · intro he
      rw [he]
      rfl
  have hB1 : (allXs imgs t).foldl max 0 = 0 ↔ ∀ q ∈ allQual imgs t, q.1 = 0 := by
    rw [foldl_max_eq_init_iff]
    constructor
    · intro hall q hq
      have := hall q.1 (allQual_mem_allXs imgs t q hq)
      omega
    · intro hall v hv
      obtain ⟨q, hq, rfl⟩ := mem_allXs_allQual imgs t v hv
      exact Nat.le_of_eq (hall q hq)
  have hB2 : (allYs imgs t).foldl max 0 = 0 ↔ ∀ q ∈ allQual imgs t, q.2 = 0 := by
    rw [foldl_max_eq_init_iff]
    constructor
    · intro hall q hq
      have := hall q.2 (allQual_mem_allYs imgs t q hq)
      omega
    · intro hall v hv
      obtain ⟨q, hq, rfl⟩ := mem_allYs_allQual imgs t v hv
      exact Nat.le_of_eq (hall q hq)
  constructor
  · rintro (h | h | h | h)
    · exact Or.inl ((allXs_nil_iff imgs t).mp (hA1.mp h))
    · exact Or.inl ((allYs_nil_iff imgs t).mp (hA2.mp h))
    · exact Or.inr (Or.inl (hB1.mp h))
    · exact Or.inr (Or.inr (hB2.mp h))
  · rintro (h | h | h)
    · exact Or.inl (hA1.mpr ((allXs_nil_iff imgs t).mpr h))
    · exact Or.inr (Or.inr (Or.inl (hB1.mpr h)))
    · exact Or.inr (Or.inr (Or.inr (hB2.mpr h)))

theorem crop_images_loop_error (t : Nat) (first : Img) (rest : List Img) (e : ImgUtilError)
    (h : crop_bounds_loop t first.width first.height (first :: rest) u32Max u32Max 0 0 =
      .error e) :
    crop_images (first :: rest) t = .error e := by
  simp only [crop_images, h]

theorem crop_images_loop_ok (t : Nat) (first : Img) (rest : List Img) (mnx mny mxx mxy : Nat)
    (h : crop_bounds_loop t first.width first.height (first :: rest) u32Max u32Max 0 0 =
      .ok (mnx, mny, mxx, mxy)) :
    crop_images (first :: rest) t =
      (if mnx = u32Max ∨ mny = u32Max ∨ mxx = 0 ∨ mxy = 0 then .error .allImagesEmpty
       else if mnx = 0 ∧ mny = 0 ∧ mxx = first.width - 1 ∧ mxy = first.height - 1 then
         .ok (first :: rest, 0, 0)
       else
         .ok ((first :: rest).map fun img =>
             crop_imm img mnx mny (mxx - mnx + 1) (mxy - mny + 1),
           (if (-(((first.width - (mxx - mnx + 1) : Nat) : ℚ) / 2 - (mnx : ℚ))) = 0 then 0
            else -(((first.width - (mxx - mnx + 1) : Nat) : ℚ) / 2 - (mnx : ℚ))),
           (if (-(((first.height - (mxy - mny + 1) : Nat) : ℚ) / 2 - (mny : ℚ))) = 0 then 0
            else -(((first.height - (mxy - mny + 1) : Nat) : ℚ) / 2 - (mny : ℚ))))) := by
  simp only [crop_images, h]

/-- C6, amended: `crop_images` fails with `NotSameSize` iff some frame's
dimensions differ from the first frame's; under uniform dimensions it fails
with `AllImagesEmpty` iff no frame has a qualifying pixel (alpha strictly
above the threshold), or every qualifying pixel of the set lies in the
leftmost column, or every one lies in the topmost row (the original claim's
"iff no qualifying pixel" is falsified by `c6_allimagesempty_counterexample`);
and the bounding box it computes is the min/max over the union of the
qualifying pixels of all frames — frames without qualifying pixels are
skipped, contributing nothing. -/
theorem c6_crop_errors_and_bounds (t : Nat) (first : Img) (rest : List Img)
    (hwb : first.width < u32Max) (hhb : first.height < u32Max) :
    (crop_images (first :: rest) t = .error .notSameSize ↔
      ∃ img ∈ first :: rest, ¬(img.width = first.width ∧ img.height = first.height)) ∧
    ((∀ img ∈ first :: rest, img.width = first.width ∧ img.height = first.height) →
      ((crop_images (first :: rest) t = .error .allImagesEmpty ↔
          (allQual (first :: rest) t = [] ∨
            (∀ q ∈ allQual (first :: rest) t, q.1 = 0) ∨
            (∀ q ∈ allQual (first :: rest) t, q.2 = 0))) ∧
        (∀ mnx mny mxx mxy,
          crop_bounds_loop t first.width first.height (first :: rest) u32Max u32Max 0 0 =
            .ok (mnx, mny, mxx, mxy) →
          allQual (first :: rest) t ≠ [] →
          ((mnx ∈ allXs (first :: rest) t ∧ ∀ v ∈ allXs (first :: rest) t, mnx ≤ v) ∧
            (mny ∈ allYs (first :: rest) t ∧ ∀ v ∈ allYs (first :: rest) t, mny ≤ v) ∧
            (mxx ∈ allXs (first :: rest) t ∧ ∀ v ∈ allXs (first :: rest) t, v ≤ mxx) ∧
            (mxy ∈ allYs (first :: rest) t ∧ ∀ v ∈ allYs (first :: rest) t, v ≤ mxy))))) := by
  refine ⟨?_, ?_⟩
  · constructor
    · intro he
      cases hloop : crop_bounds_loop t first.width first.height (first :: rest)
          u32Max u32Max 0 0 with
      | error e =>
        rw [crop_images_loop_error t first rest e hloop] at he
        have he2 : e = ImgUtilError.notSameSize := Except.error.inj he
        subst he2
        exact ((crop_bounds_loop_error_iff t first.width first.height (first :: rest)
          u32Max u32Max 0 0 _).mp hloop).2
      | ok bounds =>
        obtain ⟨mnx, mny, mxx, mxy⟩ := bounds
        rw [crop_images_loop_ok t first rest mnx mny mxx mxy hloop] at he
        split at he
        · simp at he
        · split at he <;> simp at he
    · intro hmm
      exact crop_images_loop_error t first rest _
        ((crop_bounds_loop_error_iff t first.width first.height (first :: rest)
          u32Max u32Max 0 0 _).mpr ⟨rfl, hmm⟩)
  · intro huni
    have hloopok := crop_bounds_loop_ok t first.width first.height (first :: rest)
      u32Max u32Max 0 0 huni
    have hcond := crop_empty_cond_iff (first :: rest) t first.width first.height
      huni hwb hhb
    have hxlt : ∀ v ∈ allXs (first :: rest) t, v < first.width := by
      intro v hv
      obtain ⟨q, hq, rfl⟩ := mem_allXs_allQual (first :: rest) t v hv
      exact (allQual_bounds (first :: rest) t first.width first.height huni q hq).1
    refine ⟨?_, ?_⟩
    · rw [crop_images_loop_ok t first rest _ _ _ _ hloopok]
      by_cases hc : ((allXs (first :: rest) t).foldl min u32Max = u32Max ∨
          (allYs (first :: rest) t).foldl min u32Max = u32Max ∨
          (allXs (first :: rest) t).foldl max 0 = 0 ∨
          (allYs (first :: rest) t).foldl max 0 = 0)
      · rw [if_pos hc]
        exact iff_of_true rfl (hcond.mp hc)
      · rw [if_neg hc]
        refine iff_of_false ?_ (fun hh => hc (hcond.mpr hh))
        split
        · exact fun hh => Except.noConfusion hh
        · exact fun hh => Except.noConfusion hh
    · intro mnx mny mxx mxy hloop2 hne
      rw [hloopok] at hloop2
      have hinj := Except.ok.inj hloop2
      rw [Prod.mk.injEq, Prod.mk.injEq, Prod.mk.injEq] at hinj
      obtain ⟨h1, h2, h3, h4⟩ := hinj
      subst h1
      subst h2
      subst h3
      subst h4
      have hxne : allXs (first :: rest) t ≠ [] :=
        fun h => hne ((allXs_nil_iff (first :: rest) t).mp h)
      have hyne : allYs (first :: rest) t ≠ [] :=
        fun h => hne ((allYs_nil_iff (first :: rest) t).mp h)
      have hylt : ∀ v ∈ allYs (first :: rest) t, v < first.height := by
        intro v hv
        obtain ⟨q, hq, rfl⟩ := mem_allYs_allQual (first :: rest) t v hv
        exact (allQual_bounds (first :: rest) t first.width first.height huni q hq).2
      refine ⟨⟨?_, fun v hv => foldl_min_le_mem _ _ _ hv⟩,
        ⟨?_, fun v hv => foldl_min_le_mem _ _ _ hv⟩,
        ⟨?_, fun v hv => foldl_max_ge_mem _ _ _ hv⟩,
        ⟨?_, fun v hv => foldl_max_ge_mem _ _ _ hv⟩⟩
      · rcases foldl_min_cases (allXs (first :: rest) t) u32Max with hc | hc
        · exfalso
          obtain ⟨v, hv⟩ := List.exists_mem_of_ne_nil _ hxne
          have hle := foldl_min_le_mem (allXs (first :: rest) t) u32Max v hv
          have hlt := hxlt v hv
          omega
        · exact hc
      · rcases foldl_min_cases (allYs (first :: rest) t) u32Max with hc | hc
        · exfalso
          obtain ⟨v, hv⟩ := List.exists_mem_of_ne_nil _ hyne
          have hle := foldl_min_le_mem (allYs (first :: rest) t) u32Max v hv
          have hlt := hylt v hv
          omega
        · exact hc
      · rcases foldl_max_cases (allXs (first :: rest) t) 0 with hc | hc
        · obtain ⟨v, hv⟩ := List.exists_mem_of_ne_nil _ hxne
          have hge := foldl_max_ge_mem (allXs (first :: rest) t) 0 v hv
          have hv0 : v = 0 := by omega
          rw [hc, ← hv0]
          exact hv
        · exact hc
      · rcases foldl_max_cases (allYs (first :: rest) t) 0 with hc | hc
        · obtain ⟨v, hv⟩ := List.exists_mem_of_ne_nil _ hyne
          have hge := foldl_max_ge_mem (allYs (first :: rest) t) 0 v hv
          have hv0 : v = 0 := by omega
          rw [hc, ← hv0]
          exact hv
        · exact hc

/-- C6 counterexample: the claim states `crop_images` fails with
`AllImagesEmpty` iff no frame has any qualifying pixel.  A single `2 x 2`
frame whose only visible pixel sits at `(0, 0)` has a qualifying pixel,
yet the code returns `AllImagesEmpty`, because its `max_x == u32::MIN`
emptiness test also fires when all qualifying pixels lie in column `0`. -/
theorem c6_allimagesempty_counterexample :
    crop_images [⟨2, 2, [⟨0, 0, 0, 255⟩, Rgba.clear, Rgba.clear, Rgba.clear]⟩] 0 =
      .error .allImagesEmpty ∧
    (0, 0) ∈ qual_pixels ⟨2, 2, [⟨0, 0, 0, 255⟩, Rgba.clear, Rgba.clear, Rgba.clear]⟩ 0 := by
  constructor
  · decide
  · decide

theorem c6_crop_errors_and_bounds_witness :
    c6WitnessImg.width < u32Max ∧ c6WitnessImg.height < u32Max ∧
    (crop_images [c6WitnessImg] 0 = .error .notSameSize ↔
      ∃ img ∈ [c6WitnessImg],
        ¬(img.width = c6WitnessImg.width ∧ img.height = c6WitnessImg.height)) :=
  ⟨by decide, by decide, (c6_crop_errors_and_bounds 0 c6WitnessImg [] (by decide) (by decide)).1⟩

theorem rat_zero_norm (s : ℚ) : (if s = 0 then (0 : ℚ) else s) = s := by
  by_cases h : s = 0
  · rw [if_pos h, h]
  · rw [if_neg h]

/-- C9: whenever the Cropper genuinely crops — the computed bounding box
passed the emptiness check and does not span the full canvas — the returned
shift equals, per axis, `-((original_size - cropped_size) / 2 - min)` where
`min` is the box's minimum coordinate on that axis.  The division is exact
rational (= f64, which is exact on these half-integers) arithmetic, and the
code's `-0.0` normalisation does not change the value. -/
theorem c9_crop_shift_formula (t : Nat) (first : Img) (rest : List Img)
    (mnx mny mxx mxy : Nat)
    (hloop : crop_bounds_loop t first.width first.height (first :: rest) u32Max u32Max 0 0 =
      .ok (mnx, mny, mxx, mxy))
    (hne : ¬(mnx = u32Max ∨ mny = u32Max ∨ mxx = 0 ∨ mxy = 0))
    (hfs : ¬(mnx = 0 ∧ mny = 0 ∧ mxx = first.width - 1 ∧ mxy = first.height - 1)) :
    crop_images (first :: rest) t =
      .ok ((first :: rest).map fun img =>
          crop_imm img mnx mny (mxx - mnx + 1) (mxy - mny + 1),
        -(((first.width - (mxx - mnx + 1) : Nat) : ℚ) / 2 - (mnx : ℚ)),
        -(((first.height - (mxy - mny + 1) : Nat) : ℚ) / 2 - (mny : ℚ))) := by
  rw [crop_images_loop_ok t first rest mnx mny mxx mxy hloop, if_neg hne, if_neg hfs,
    rat_zero_norm, rat_zero_norm]

theorem c9_crop_shift_formula_witness :
    crop_bounds_loop 0 c9WitnessImg.width c9WitnessImg.height [c9WitnessImg]
        u32Max u32Max 0 0 = .ok (1, 0, 3, 1) ∧
    crop_images [c9WitnessImg] 0 =
      .ok ([c9WitnessImg].map fun img => crop_imm img 1 0 (3 - 1 + 1) (1 - 0 + 1),
        -(((c9WitnessImg.width - (3 - 1 + 1) : Nat) : ℚ) / 2 - ((1 : Nat) : ℚ)),
        -(((c9WitnessImg.height - (1 - 0 + 1) : Nat) : ℚ) / 2 - ((0 : Nat) : ℚ))) :=
  ⟨by decide,
    c9_crop_shift_formula 0 c9WitnessImg [] 1 0 3 1 (by decide) (by decide) (by decide)⟩

theorem crop_imm_width (img : Img) (cx cy cw ch : Nat) :
    (crop_imm img cx cy cw ch).width = cw := rfl

theorem crop_imm_height (img : Img) (cx cy cw ch : Nat) :
    (crop_imm img cx cy cw ch).height = ch := rfl

theorem crop_imm_pixel (img : Img) (cx cy cw ch x y : Nat) (hx : x < cw) (hy : y < ch) :
    (crop_imm img cx cy cw ch).pixel x y = img.pixel (cx + x) (cy + y) := by
  have hcw : 0 < cw := by omega
  have hk : y * cw + x < ch * cw := by
    have h2 : (y + 1) * cw ≤ ch * cw := Nat.mul_le_mul_right cw hy
    have h1 : y * cw + x < (y + 1) * cw := by
      rw [Nat.succ_mul]
      omega
    omega
  have hdiv : (y * cw + x) / cw = y := by
    rw [Nat.mul_comm y cw, Nat.mul_add_div hcw, Nat.div_eq_of_lt hx, Nat.add_zero]
  have hmod : (y * cw + x) % cw = x := by
    rw [Nat.mul_comm y cw, Nat.mul_add_mod, Nat.mod_eq_of_lt hx]
  have hget2 : (crop_imm img cx cy cw ch).data[y * cw + x]? =
      some (img.pixel (cx + x) (cy + y)) := by
    have h := (flatMap_range_map_facts cw
      (fun yy xx => img.pixel (cx + xx) (cy + yy)) ch).2 (y * cw + x) hk
    rw [hdiv, hmod] at h
    exact h
  show (crop_imm img cx cy cw ch).data.getD
      (y * (crop_imm img cx cy cw ch).width + x) Rgba.clear = _
  rw [crop_imm_width, List.getD_eq_getElem?_getD, hget2]
  rfl

theorem mem_qual_crop (img : Img) (t cx cy cw ch x y : Nat)
    (hbw : cx + cw ≤ img.width) (hbh : cy + ch ≤ img.height) :
    (x, y) ∈ qual_pixels (crop_imm img cx cy cw ch) t ↔
      x < cw ∧ y < ch ∧ (cx + x, cy + y) ∈ qual_pixels img t := by
  rw [mem_qual_pixels, mem_qual_pixels, crop_imm_width, crop_imm_height]
  constructor
  · rintro ⟨hx, hy, ht⟩
    rw [crop_imm_pixel img cx cy cw ch x y hx hy] at ht
    exact ⟨hx, hy, by omega, by omega, ht⟩
  · rintro ⟨hx, hy, _, _, ht⟩
    exact ⟨hx, hy, by rw [crop_imm_pixel img cx cy cw ch x y hx hy]; exact ht⟩

theorem crop_set_mem_allXs (t : Nat) (imgs : List Img) (rw rh mnx mny mxx mxy : Nat)
    (huni : ∀ img ∈ imgs, img.width = rw ∧ img.height = rh)
    (hminy : ∀ v ∈ allYs imgs t, mny ≤ v) (hmaxy : ∀ v ∈ allYs imgs t, v ≤ mxy)
    (hmxxw : mxx < rw) (hmxyh : mxy < rh) (hmn : mnx ≤ mxx) (hmny : mny ≤ mxy)
    (u : Nat) (hu : u ∈ allXs imgs t) (humn : mnx ≤ u) (humx : u ≤ mxx) :
    u - mnx ∈
      allXs (imgs.map fun img => crop_imm img mnx mny (mxx - mnx + 1) (mxy - mny + 1)) t := by
  obtain ⟨q, hqAll, hq1⟩ := mem_allXs_allQual imgs t u hu
  obtain ⟨img, himg, hqimg⟩ := (mem_allQual imgs t q).mp hqAll
  obtain ⟨hw, hh⟩ := huni img himg
  have hqy1 : mny ≤ q.2 := hminy q.2 (allQual_mem_allYs imgs t q hqAll)
  have hqy2 : q.2 ≤ mxy := hmaxy q.2 (allQual_mem_allYs imgs t q hqAll)
  have hbw : mnx + (mxx - mnx + 1) ≤ img.width := by omega
  have hbh : mny + (mxy - mny + 1) ≤ img.height := by omega
  have hpair : (mnx + (u - mnx), mny + (q.2 - mny)) = q := by
    have h1 : mnx + (u - mnx) = q.1 := by omega
    have h2 : mny + (q.2 - mny) = q.2 := by omega
    rw [h1, h2]
  have hmem : (u - mnx, q.2 - mny) ∈
      qual_pixels (crop_imm img mnx mny (mxx - mnx + 1) (mxy - mny + 1)) t :=
    (mem_qual_crop img t mnx mny (mxx - mnx + 1) (mxy - mny + 1) (u - mnx) (q.2 - mny)
      hbw hbh).mpr ⟨by omega, by omega, by rw [hpair]; exact hqimg⟩
  exact (mem_allXs _ t (u - mnx)).mpr
    ⟨crop_imm img mnx mny (mxx - mnx + 1) (mxy - mny + 1),
      List.mem_map.mpr ⟨img, himg, rfl⟩, (u - mnx, q.2 - mny), hmem, rfl⟩

theorem crop_set_mem_allYs (t : Nat) (imgs : List Img) (rw rh mnx mny mxx mxy : Nat)
    (huni : ∀ img ∈ imgs, img.width = rw ∧ img.height = rh)
    (hminx : ∀ v ∈ allXs imgs t, mnx ≤ v) (hmaxx : ∀ v ∈ allXs imgs t, v ≤ mxx)
    (hmxxw : mxx < rw) (hmxyh : mxy < rh) (hmn : mnx ≤ mxx) (hmny : mny ≤ mxy)
    (u : Nat) (hu : u ∈ allYs imgs t) (humn : mny ≤ u) (humx : u ≤ mxy) :
    u - mny ∈
      allYs (imgs.map fun img => crop_imm img mnx mny (mxx - mnx + 1) (mxy - mny + 1)) t := by
  obtain ⟨q, hqAll, hq2⟩ := mem_allYs_allQual imgs t u hu
  obtain ⟨img, himg, hqimg⟩ := (mem_allQual imgs t q).mp hqAll
  obtain ⟨hw, hh⟩ := huni img himg
  have hqx1 : mnx ≤ q.1 := hminx q.1 (allQual_mem_allXs imgs t q hqAll)
  have hqx2 : q.1 ≤ mxx := hmaxx q.1 (allQual_mem_allXs imgs t q hqAll)
  have hbw : mnx + (mxx - mnx + 1) ≤ img.width := by omega
  have hbh : mny + (mxy - mny + 1) ≤ img.height := by omega
  have hpair : (mnx + (q.1 - mnx), mny + (u - mny)) = q := by
    have h1 : mnx + (q.1 - mnx) = q.1 := by omega
    have h2 : mny + (u - mny) = q.2 := by omega
    rw [h1, h2]
  have hmem : (q.1 - mnx, u - mny) ∈
      qual_pixels (crop_imm img mnx mny (mxx - mnx + 1) (mxy - mny + 1)) t :=
    (mem_qual_crop img t mnx mny (mxx - mnx + 1) (mxy - mny + 1) (q.1 - mnx) (u - mny)
      hbw hbh).mpr ⟨by omega, by omega, by rw [hpair]; exact hqimg⟩
  exact (mem_allYs _ t (u - mny)).mpr
    ⟨crop_imm img mnx mny (mxx - mnx + 1) (mxy - mny + 1),
      List.mem_map.mpr ⟨img, himg, rfl⟩, (q.1 - mnx, u - mny), hmem, rfl⟩

/-- C8 counterexample: cropping is not idempotent on this frame set.  A
`3 x 3` frame visible only at its centre crops successfully to a `1 x 1`
frame (with shift `(0, 0)`), but cropping the result again with the same
threshold fails with `AllImagesEmpty` instead of returning shift `(0, 0)`:
the re-crop's only qualifying pixel is at `(0, 0)`, so the code's
`max_x == u32::MIN` emptiness test fires. -/
theorem c8_idempotence_counterexample :
    crop_images [c8CounterImg] 0 = .ok ([crop_imm c8CounterImg 1 1 1 1], 0, 0) ∧
    crop_images [crop_imm c8CounterImg 1 1 1 1] 0 = .error .allImagesEmpty := by
  constructor
  · have hloop : crop_bounds_loop 0 c8CounterImg.width c8CounterImg.height [c8CounterImg]
        u32Max u32Max 0 0 = .ok (1, 1, 1, 1) := by decide
    rw [crop_images_loop_ok 0 c8CounterImg [] 1 1 1 1 hloop, if_neg (by decide),
      if_neg (by decide)]
    have hw3 : c8CounterImg.width = 3 := rfl
    have hh3 : c8CounterImg.height = 3 := rfl
    simp only [List.map_cons, List.map_nil, rat_zero_norm, hw3, hh3]
    norm_num
  · decide

/-- C8, amended: cropping is idempotent provided every frame of the cropped
output is at least `2` pixels wide and `2` pixels tall.  For a uniform frame
set that `crop_images` successfully crops, re-cropping the output with the
same threshold returns the frames unchanged with shift exactly `(0, 0)`, and
the re-computed bounding box spans the full cropped canvas.  Without the
two-pixel proviso the re-crop can fail outright
(`c8_idempotence_counterexample`): a one-pixel-wide (or -tall) output puts
every qualifying pixel in column (row) `0`, tripping the `max_x == u32::MIN`
emptiness test. -/
theorem c8_crop_idempotent (t : Nat) (first : Img) (rest : List Img)
    (out : List Img × ℚ × ℚ)
    (huni : ∀ img ∈ first :: rest, img.width = first.width ∧ img.height = first.height)
    (hok : crop_images (first :: rest) t = .ok out)
    (hdims : ∀ img ∈ out.1, 2 ≤ img.width ∧ 2 ≤ img.height) :
    crop_images out.1 t = .ok (out.1, 0, 0) ∧
    ∀ img' ∈ out.1,
      crop_bounds_loop t img'.width img'.height out.1 u32Max u32Max 0 0 =
        .ok (0, 0, img'.width - 1, img'.height - 1) := by
  have hloop := crop_bounds_loop_ok t first.width first.height (first :: rest)
    u32Max u32Max 0 0 huni
  obtain ⟨mnx, hmnx⟩ : ∃ v, (allXs (first :: rest) t).foldl min u32Max = v := ⟨_, rfl⟩
  obtain ⟨mny, hmny⟩ : ∃ v, (allYs (first :: rest) t).foldl min u32Max = v := ⟨_, rfl⟩
  obtain ⟨mxx, hmxx⟩ : ∃ v, (allXs (first :: rest) t).foldl max 0 = v := ⟨_, rfl⟩
  obtain ⟨mxy, hmxy⟩ : ∃ v, (allYs (first :: rest) t).foldl max 0 = v := ⟨_, rfl⟩
  rw [hmnx, hmny, hmxx, hmxy] at hloop
  rw [crop_images_loop_ok t first rest mnx mny mxx mxy hloop] at hok
  by_cases hemp : mnx = u32Max ∨ mny = u32Max ∨ mxx = 0 ∨ mxy = 0
  · rw [if_pos hemp] at hok
    exact absurd hok (by simp)
  · rw [if_neg hemp] at hok
    push_neg at hemp
    obtain ⟨hne1, hne2, hne3, hne4⟩ := hemp
    by_cases hfs : mnx = 0 ∧ mny = 0 ∧ mxx = first.width - 1 ∧ mxy = first.height - 1
    · rw [if_pos hfs] at hok
      have h1 : out.1 = first :: rest := by rw [← Except.ok.inj hok]
      rw [h1]
      constructor
      · rw [crop_images_loop_ok t first rest mnx mny mxx mxy hloop,
          if_neg (by tauto), if_pos hfs]
      · intro img' hm
        obtain ⟨hw', hh'⟩ := huni img' hm
        rw [hw', hh', hloop, hfs.1, hfs.2.1, hfs.2.2.1, hfs.2.2.2]
    · rw [if_neg hfs] at hok
      have hout1 : out.1 =
          (first :: rest).map fun img =>
            crop_imm img mnx mny (mxx - mnx + 1) (mxy - mny + 1) := by
        rw [← Except.ok.inj hok]
      have hminxb : ∀ v ∈ allXs (first :: rest) t, mnx ≤ v := by
        intro v hv
        have h := foldl_min_le_mem (allXs (first :: rest) t) u32Max v hv
        rw [hmnx] at h
        exact h
      have hminyb : ∀ v ∈ allYs (first :: rest) t, mny ≤ v := by
        intro v hv
        have h := foldl_min_le_mem (allYs (first :: rest) t) u32Max v hv
        rw [hmny] at h
        exact h
      have hmaxxb : ∀ v ∈ allXs (first :: rest) t, v ≤ mxx := by
        intro v hv
        have h := foldl_max_ge_mem (allXs (first :: rest) t) 0 v hv
        rw [hmxx] at h
        exact h
      have hmaxyb : ∀ v ∈ allYs (first :: rest) t, v ≤ mxy := by
        intro v hv
        have h := foldl_max_ge_mem (allYs (first :: rest) t) 0 v hv
        rw [hmxy] at h
        exact h
      have hmnx_mem : mnx ∈ allXs (first :: rest) t := by
        rcases foldl_min_cases (allXs (first :: rest) t) u32Max with hc | hc
        · rw [hmnx] at hc
          exact absurd hc hne1
        · rw [hmnx] at hc
          exact hc
      have hmny_mem : mny ∈ allYs (first :: rest) t := by
        rcases foldl_min_cases (allYs (first :: rest) t) u32Max with hc | hc
        · rw [hmny] at hc
          exact absurd hc hne2
        · rw [hmny] at hc
          exact hc
      have hmxx_mem : mxx ∈ allXs (first :: rest) t := by
        rcases foldl_max_cases (allXs (first :: rest) t) 0 with hc | hc
        · rw [hmxx] at hc
          exact absurd hc hne3
        · rw [hmxx] at hc
          exact hc
      have hmxy_mem : mxy ∈ allYs (first :: rest) t := by
        rcases foldl_max_cases (allYs (first :: rest) t) 0 with hc | hc
        · rw [hmxy] at hc
          exact absurd hc hne4
        · rw [hmxy] at hc
          exact hc
      have hxlt : ∀ v ∈ allXs (first :: rest) t, v < first.width := by
        intro v hv
        obtain ⟨q, hq, rfl⟩ := mem_allXs_allQual (first :: rest) t v hv
        exact (allQual_bounds (first :: rest) t first.width first.height huni q hq).1
      have hylt : ∀ v ∈ allYs (first :: rest) t, v < first.height := by
        intro v hv
        obtain ⟨q, hq, rfl⟩ := mem_allYs_allQual (first :: rest) t v hv
        exact (allQual_bounds (first :: rest) t first.width first.height huni q hq).2
      have hmxxw : mxx < first.width := hxlt mxx hmxx_mem
      have hmxyh : mxy < first.height := hylt mxy hmxy_mem
      have hmnle : mnx ≤ mxx := hminxb mxx hmxx_mem
      have hmnyle : mny ≤ mxy := hminyb mxy hmxy_mem
      have h0xmem : (0 : Nat) ∈ allXs out.1 t := by
        have h := crop_set_mem_allXs t (first :: rest) first.width first.height mnx mny mxx mxy
          huni hminyb hmaxyb hmxxw hmxyh hmnle hmnyle mnx hmnx_mem (Nat.le_refl mnx) hmnle
        have hz : mnx - mnx = 0 := Nat.sub_self mnx
        rw [hz] at h
        rw [hout1]
        exact h
      have h0ymem : (0 : Nat) ∈ allYs out.1 t := by
        have h := crop_set_mem_allYs t (first :: rest) first.width first.height mnx mny mxx mxy
          huni hminxb hmaxxb hmxxw hmxyh hmnle hmnyle mny hmny_mem (Nat.le_refl mny) hmnyle
        have hz : mny - mny = 0 := Nat.sub_self mny
        rw [hz] at h
        rw [hout1]
        exact h
      have hMxmem : mxx - mnx ∈ allXs out.1 t := by
        have h := crop_set_mem_allXs t (first :: rest) first.width first.height mnx mny mxx mxy
          huni hminyb hmaxyb hmxxw hmxyh hmnle hmnyle mxx hmxx_mem hmnle (Nat.le_refl mxx)
        rw [hout1]
        exact h
      have hMymem : mxy - mny ∈ allYs out.1 t := by
        have h := crop_set_mem_allYs t (first :: rest) first.width first.height mnx mny mxx mxy
          huni hminxb hmaxxb hmxxw hmxyh hmnle hmnyle mxy hmxy_mem hmnyle (Nat.le_refl mxy)
        rw [hout1]
        exact h
      have huni2 : ∀ img ∈ out.1,
          img.width = mxx - mnx + 1 ∧ img.height = mxy - mny + 1 := by
        intro img hm
        rw [hout1] at hm
        obtain ⟨i, hi, rfl⟩ := List.mem_map.mp hm
        exact ⟨rfl, rfl⟩
      have hxub : ∀ v ∈ allXs out.1 t, v ≤ mxx - mnx := by
        intro v hv
        obtain ⟨q, hq, rfl⟩ := mem_allXs_allQual out.1 t v hv
        have h := (allQual_bounds out.1 t (mxx - mnx + 1) (mxy - mny + 1) huni2 q hq).1
        omega
      have hyub : ∀ v ∈ allYs out.1 t, v ≤ mxy - mny := by
        intro v hv
        obtain ⟨q, hq, rfl⟩ := mem_allYs_allQual out.1 t v hv
        have h := (allQual_bounds out.1 t (mxx - mnx + 1) (mxy - mny + 1) huni2 q hq).2
        omega
      have h0x : (allXs out.1 t).foldl min u32Max = 0 :=
        Nat.le_zero.mp (foldl_min_le_mem _ _ 0 h0xmem)
      have h0y : (allYs out.1 t).foldl min u32Max = 0 :=
        Nat.le_zero.mp (foldl_min_le_mem _ _ 0 h0ymem)
      have hMx : (allXs out.1 t).foldl max 0 = mxx - mnx :=
        Nat.le_antisymm (foldl_max_le_bound _ 0 _ (Nat.zero_le _) hxub)
          (foldl_max_ge_mem _ 0 _ hMxmem)
      have hMy : (allYs out.1 t).foldl max 0 = mxy - mny :=
        Nat.le_antisymm (foldl_max_le_bound _ 0 _ (Nat.zero_le _) hyub)
          (foldl_max_ge_mem _ 0 _ hMymem)
      have hloop2 : crop_bounds_loop t (mxx - mnx + 1) (mxy - mny + 1) out.1
          u32Max u32Max 0 0 = .ok (0, 0, mxx - mnx, mxy - mny) := by
        rw [crop_bounds_loop_ok t (mxx - mnx + 1) (mxy - mny + 1) out.1 u32Max u32Max 0 0 huni2,
          h0x, h0y, hMx, hMy]
      have hhd : crop_imm first mnx mny (mxx - mnx + 1) (mxy - mny + 1) ∈ out.1 := by
        rw [hout1]
        exact List.mem_map.mpr ⟨first, List.mem_cons_self first rest, rfl⟩
      have h2cw : 2 ≤ mxx - mnx + 1 := by
        have h := (hdims _ hhd).1
        rw [crop_imm_width] at h
        exact h
      have h2ch : 2 ≤ mxy - mny + 1 := by
        have h := (hdims _ hhd).2
        rw [crop_imm_height] at h
        exact h
      constructor
      · have hloop2c := hloop2
        rw [hout1] at hloop2c
        have hloop3 : crop_bounds_loop t
            (crop_imm first mnx mny (mxx - mnx + 1) (mxy - mny + 1)).width
            (crop_imm first mnx mny (mxx - mnx + 1) (mxy - mny + 1)).height
            (crop_imm first mnx mny (mxx - mnx + 1) (mxy - mny + 1) ::
              rest.map fun img => crop_imm img mnx mny (mxx - mnx + 1) (mxy - mny + 1))
            u32Max u32Max 0 0 = .ok (0, 0, mxx - mnx, mxy - mny) := hloop2c
        have hres := crop_images_loop_ok t
          (crop_imm first mnx mny (mxx - mnx + 1) (mxy - mny + 1))
          (rest.map fun img => crop_imm img mnx mny (mxx - mnx + 1) (mxy - mny + 1))
          0 0 (mxx - mnx) (mxy - mny) hloop3
        have hcond1 : ¬((0 : Nat) = u32Max ∨ (0 : Nat) = u32Max ∨
            mxx - mnx = 0 ∨ mxy - mny = 0) := by
          have hu : u32Max = 4294967295 := rfl
          omega
        have hcond2 : (0 : Nat) = 0 ∧ (0 : Nat) = 0 ∧
            mxx - mnx = (crop_imm first mnx mny (mxx - mnx + 1) (mxy - mny + 1)).width - 1 ∧
            mxy - mny = (crop_imm first mnx mny (mxx - mnx + 1) (mxy - mny + 1)).height - 1 :=
          ⟨rfl, rfl, by rw [crop_imm_width]; omega, by rw [crop_imm_height]; omega⟩
        rw [hout1, List.map_cons, hres, if_neg hcond1, if_pos hcond2]
      · intro img' hm
        obtain ⟨hw', hh'⟩ := huni2 img' hm
        rw [hw', hh', hloop2]
        simp

theorem c8_first_crop_eval :
    crop_images [c8WitnessImg] 0 = .ok ([crop_imm c8WitnessImg 1 1 2 2], 0, 0) := by
  have hloop : crop_bounds_loop 0 c8WitnessImg.width c8WitnessImg.height [c8WitnessImg]
      u32Max u32Max 0 0 = .ok (1, 1, 2, 2) := by decide
  rw [crop_images_loop_ok 0 c8WitnessImg [] 1 1 2 2 hloop, if_neg (by decide),
    if_neg (by decide)]
  have hw4 : c8WitnessImg.width = 4 := rfl
  have hh4 : c8WitnessImg.height = 4 := rfl
  simp only [List.map_cons, List.map_nil, rat_zero_norm, hw4, hh4]
  norm_num

theorem c8_crop_idempotent_witness :
    (∀ img ∈ [c8WitnessImg],
      img.width = c8WitnessImg.width ∧ img.height = c8WitnessImg.height) ∧
    (crop_images [crop_imm c8WitnessImg 1 1 2 2] 0 =
        .ok ([crop_imm c8WitnessImg 1 1 2 2], 0, 0) ∧
      ∀ img' ∈ [crop_imm c8WitnessImg 1 1 2 2],
        crop_bounds_loop 0 img'.width img'.height [crop_imm c8WitnessImg 1 1 2 2]
          u32Max u32Max 0 0 = .ok (0, 0, img'.width - 1, img'.height - 1)) :=
  ⟨by decide,
    c8_crop_idempotent 0 c8WitnessImg [] ([crop_imm c8WitnessImg 1 1 2 2], 0, 0)
      (by decide) c8_first_crop_eval (by decide)⟩

theorem div_pow_succ (nw j : Nat) : nw / 2 ^ (j + 1) = nw / 2 / 2 ^ j := by
  rw [Nat.div_div_eq_div_mul, pow_succ]
  rw [Nat.mul_comm (2 ^ j) 2]

theorem mip_loop_step (a : Nat × Nat) (l : List (Nat × Nat)) (idx nw nx : Nat)
    (he : nw % 2 = 0) (hsq : a.1 = a.2) (hw : a.1 = nw) :
    mip_loop (a :: l) idx nw nx = mip_loop l (idx + 1) (nw / 2) (nx + nw) := by
  simp only [mip_loop]
  rw [if_neg (fun h => h he), if_neg (fun h => h hsq), if_neg (fun h => h hw)]

theorem mip_loop_ne_tooMany : ∀ (l : List (Nat × Nat)) (idx nw nx n m : Nat),
    mip_loop l idx nw nx ≠ .error (.tooManyImages n m)
  | [], _, _, _, _, _ => by simp [mip_loop]
  | a :: l, idx, nw, nx, n, m => by
    simp only [mip_loop]
    split
    · simp
    · split
      · simp
      · split
        · simp
        · exact mip_loop_ne_tooMany l (idx + 1) (nw / 2) (nx + nw) n m

theorem mip_loop_ok : ∀ (l : List (Nat × Nat)) (idx nw nx : Nat),
    (∀ k, k < l.length →
      nw / 2 ^ k % 2 = 0 ∧ (l.getD k (0, 0)).1 = (l.getD k (0, 0)).2 ∧
      (l.getD k (0, 0)).1 = nw / 2 ^ k) →
    mip_loop l idx nw nx = .ok (nx + ((List.range l.length).map fun k => nw / 2 ^ k).sum)
  | [], idx, nw, nx, _ => by simp [mip_loop]
  | a :: l, idx, nw, nx, hok => by
    have h0 := hok 0 (by simp)
    simp only [List.getD_cons_zero, pow_zero, Nat.div_one] at h0
    obtain ⟨h0e, h0s, h0w⟩ := h0
    have htail : ∀ k, k < l.length →
        nw / 2 / 2 ^ k % 2 = 0 ∧ (l.getD k (0, 0)).1 = (l.getD k (0, 0)).2 ∧
        (l.getD k (0, 0)).1 = nw / 2 / 2 ^ k := by
      intro k hk
      have h := hok (k + 1) (by simp only [List.length_cons]; omega)
      rw [List.getD_cons_succ, div_pow_succ] at h
      exact h
    rw [mip_loop_step a l idx nw nx h0e h0s h0w,
      mip_loop_ok l (idx + 1) (nw / 2) (nx + nw) htail]
    have hsum : ((List.range (l.length + 1)).map fun k => nw / 2 ^ k).sum =
        nw + ((List.range l.length).map fun k => nw / 2 / 2 ^ k).sum := by
      rw [List.range_succ_eq_map, List.map_cons, List.sum_cons, List.map_map]
      have hfe : ((fun k => nw / 2 ^ k) ∘ Nat.succ) = fun k => nw / 2 / 2 ^ k := by
        funext k
        simp only [Function.comp]
        rw [← div_pow_succ]
      rw [hfe]
      simp
    simp only [List.length_cons]
    rw [hsum]
    congr 1
    omega

theorem mip_loop_first_fail : ∀ (l : List (Nat × Nat)) (idx nw nx k : Nat), k < l.length →
    (∀ j, j < k → nw / 2 ^ j % 2 = 0 ∧ (l.getD j (0, 0)).1 = (l.getD j (0, 0)).2 ∧
      (l.getD j (0, 0)).1 = nw / 2 ^ j) →
    ((nw / 2 ^ k % 2 ≠ 0 →
        mip_loop l idx nw nx = .error (.oddImageSizeForMipLevel (idx + k))) ∧
      (nw / 2 ^ k % 2 = 0 → (l.getD k (0, 0)).1 ≠ (l.getD k (0, 0)).2 →
        mip_loop l idx nw nx = .error .imageNotSquare) ∧
      (nw / 2 ^ k % 2 = 0 → (l.getD k (0, 0)).1 = (l.getD k (0, 0)).2 →
        (l.getD k (0, 0)).1 ≠ nw / 2 ^ k →
        mip_loop l idx nw nx = .error (.wrongImageSize (l.getD k (0, 0)).1 (nw / 2 ^ k))))
  | [], idx, nw, nx, k, hk, _ => by simp at hk
  | a :: l, idx, nw, nx, 0, hk, hpre => by
    simp only [List.getD_cons_zero, pow_zero, Nat.div_one, Nat.add_zero]
    refine ⟨?_, ?_, ?_⟩
    · intro hodd
      simp only [mip_loop]
      rw [if_pos hodd]
    · intro he hnsq
      simp only [mip_loop]
      rw [if_neg (fun h => h he), if_pos hnsq]
    · intro he hsq hnw
      simp only [mip_loop]
      rw [if_neg (fun h => h he), if_neg (fun h => h hsq), if_pos hnw]
  | a :: l, idx, nw, nx, k + 1, hk, hpre => by
    have h0 := hpre 0 (by omega)
    simp only [List.getD_cons_zero, pow_zero, Nat.div_one] at h0
    obtain ⟨h0e, h0s, h0w⟩ := h0
    have hpre' : ∀ j, j < k → nw / 2 / 2 ^ j % 2 = 0 ∧
        (l.getD j (0, 0)).1 = (l.getD j (0, 0)).2 ∧
        (l.getD j (0, 0)).1 = nw / 2 / 2 ^ j := by
      intro j hj
      have h := hpre (j + 1) (by omega)
      rw [List.getD_cons_succ, div_pow_succ] at h
      exact h
    have hk' : k < l.length := by
      simp only [List.length_cons] at hk
      omega
    rw [mip_loop_step a l idx nw nx h0e h0s h0w, List.getD_cons_succ, div_pow_succ,
      (by omega : idx + (k + 1) = idx + 1 + k)]
    exact mip_loop_first_fail l (idx + 1) (nw / 2) (nx + nw) k hk' hpre'

/-- C7, amended: for a non-empty frame list `base :: rest` (already sorted
descending by width, as the code arranges), the Mip-Icon Assembler fails with
`ImageNotSquare` if the largest frame is not square; otherwise it fails with
`TooManyImages` iff the frame count exceeds `u32_log2 base_width` (floor
log2, never reporting `TooManyImages` when the count fits); and writing
`W / 2 ^ k` for level `k`'s expected width: if every level has an even
expected width, a square frame, and the expected width, it succeeds with a
strip of width the sum of all level widths and height the base height; and
at the first level `k` violating a check, the checks apply in code order —
odd expected width (`OddImageSizeForMipLevel k`), then frame not square
(`ImageNotSquare` — a mid-chain failure the original claim omits, see
`c7_nonsquare_level_counterexample`), then frame width not the expected
width (`WrongImageSize`). -/
theorem c7_mip_icon_characterization (base : Nat × Nat) (rest : List (Nat × Nat)) :
    (base.1 ≠ base.2 → generate_mipmap_icon (base :: rest) = .error .imageNotSquare) ∧
    (base.1 = base.2 →
      (u32_log2 base.1 < rest.length + 1 →
        generate_mipmap_icon (base :: rest) =
          .error (.tooManyImages (rest.length + 1) (u32_log2 base.1))) ∧
      (rest.length + 1 ≤ u32_log2 base.1 →
        (∀ n m, generate_mipmap_icon (base :: rest) ≠ .error (.tooManyImages n m)) ∧
        ((∀ k, k < rest.length + 1 →
            base.1 / 2 ^ k % 2 = 0 ∧
            ((base :: rest).getD k (0, 0)).1 = ((base :: rest).getD k (0, 0)).2 ∧
            ((base :: rest).getD k (0, 0)).1 = base.1 / 2 ^ k) →
          generate_mipmap_icon (base :: rest) =
            .ok (((List.range (rest.length + 1)).map fun k => base.1 / 2 ^ k).sum, base.2)) ∧
        ∀ k, k < rest.length + 1 →
          (∀ j, j < k →
            base.1 / 2 ^ j % 2 = 0 ∧
            ((base :: rest).getD j (0, 0)).1 = ((base :: rest).getD j (0, 0)).2 ∧
            ((base :: rest).getD j (0, 0)).1 = base.1 / 2 ^ j) →
          ((base.1 / 2 ^ k % 2 ≠ 0 →
            generate_mipmap_icon (base :: rest) = .error (.oddImageSizeForMipLevel k)) ∧
          (base.1 / 2 ^ k % 2 = 0 →
            ((base :: rest).getD k (0, 0)).1 ≠ ((base :: rest).getD k (0, 0)).2 →
            generate_mipmap_icon (base :: rest) = .error .imageNotSquare) ∧
          (base.1 / 2 ^ k % 2 = 0 →
            ((base :: rest).getD k (0, 0)).1 = ((base :: rest).getD k (0, 0)).2 →
            ((base :: rest).getD k (0, 0)).1 ≠ base.1 / 2 ^ k →
            generate_mipmap_icon (base :: rest) =
              .error (.wrongImageSize ((base :: rest).getD k (0, 0)).1 (base.1 / 2 ^ k)))))) := by
  refine ⟨?_, ?_⟩
  · intro hnsq
    simp only [generate_mipmap_icon]
    rw [if_pos hnsq]
  · intro hsq
    have hnotif : ¬base.1 ≠ base.2 := fun h => h hsq
    refine ⟨?_, ?_⟩
    · intro hgt
      simp only [generate_mipmap_icon]
      rw [if_neg hnotif, if_pos (by simp only [List.length_cons]; omega)]
      simp only [List.length_cons]
    · intro hle
      have hgen : generate_mipmap_icon (base :: rest) =
          (mip_loop (base :: rest) 0 base.1 0).map fun next_x => (next_x, base.2) := by
        simp only [generate_mipmap_icon]
        rw [if_neg hnotif, if_neg (by simp only [List.length_cons]; omega)]
      refine ⟨?_, ?_, ?_⟩
      · intro n m
        rw [hgen]
        cases hml : mip_loop (base :: rest) 0 base.1 0 with
        | ok v => simp [Except.map]
        | error e =>
          simp only [Except.map]
          intro hcontra
          have he : e = .tooManyImages n m := Except.error.inj hcontra
          rw [he] at hml
          exact mip_loop_ne_tooMany (base :: rest) 0 base.1 0 n m hml
      · intro hall
        rw [hgen, mip_loop_ok (base :: rest) 0 base.1 0
          (by simp only [List.length_cons]; exact hall)]
        simp [Except.map, List.length_cons]
      · intro k hk hprefix
        have hk2 : k < (base :: rest).length := by simp only [List.length_cons]; omega
        have hff := mip_loop_first_fail (base :: rest) 0 base.1 0 k hk2 hprefix
        refine ⟨?_, ?_, ?_⟩
        · intro hodd
          rw [hgen, hff.1 hodd]
          simp [Except.map]
        · intro he hnsq2
          rw [hgen, hff.2.1 he hnsq2]
          simp [Except.map]
        · intro he hsq2 hnw
          rw [hgen, hff.2.2 he hsq2 hnw]
          simp [Except.map]

/-- C7 counterexample: the claim ties `ImageNotSquare` only to the largest
frame.  On `[(64, 64), (32, 16)]` the largest frame is square, the count `2`
is within `u32_log2 64 = 6`, both expected level widths (`64`, `32`) are
even, and the level-1 frame has the expected width `32` — every failure
condition the claim lists is absent — yet the code fails with
`ImageNotSquare` because the level-1 frame `32 x 16` is not square. -/
theorem c7_nonsquare_level_counterexample :
    generate_mipmap_icon [(64, 64), (32, 16)] = .error .imageNotSquare ∧
    ((64, 64) : Nat × Nat).1 = ((64, 64) : Nat × Nat).2 ∧
    2 ≤ u32_log2 64 ∧
    (64 : Nat) / 2 ^ 0 % 2 = 0 ∧ (64 : Nat) / 2 ^ 1 % 2 = 0 ∧
    (32 : Nat) = 64 / 2 ^ 1 := by
  decide

theorem c7_mip_icon_characterization_witness :
    generate_mipmap_icon [(64, 64), (32, 32), (16, 16)] = .ok (112, 64) := by
  have h := ((c7_mip_icon_characterization (64, 64) [(32, 32), (16, 16)]).2
    (by decide)).2 (by decide)
  have h2 := h.2.1 (by decide)
  rw [h2]
  decide
